import Mathlib

/-!
# Lane Evaluation Engine — shallow embedding

Verification of the note-reading-game lane evaluation core against its
natural-language specification.

Two generations of the same engine exist in the repository:

* `src/src/engine/piano-core.js` — the self-contained engine with the full
  callback contract (`onSuccess`, `onFail(..., reason)`, `onLives`,
  `onLaneDisabled`, `onGameOver`); it is the only variant that carries the
  failure-reason strings `melody-wrong-note` / `chord-stray` /
  `chord-timeout`.  Embedded below in namespace `PianoCore`.
* `src/src/midi/lane-system.ts` — the TypeScript variant
  (`handleMidiNoteOn`, `handleMelody_Strict`, `handleChord_Strict`,
  `chordTimeoutCheck`, `speedForLevel`, `spawnNext`, `decrementLives`);
  embedded below in namespace `LaneSystem`.

Modelling conventions:

* Target `id`s are "collision-resistant opaque tokens" (`makeId()` /
  `Date.now()`-based strings in the source); they are modelled as `Nat`,
  used only for equality tests, exactly as the source uses them.
* MIDI pitches, velocities and life counts are JS numbers used as integers;
  they are modelled as `Int`.
* `performance.now()` is modelled by a `now : Nat` clock field (milliseconds);
  time only advances between externally triggered events.
* `setTimeout(cb, d)` is modelled by appending an explicit `Timer` record
  holding exactly the data the JS closure captures (the lane, the target id,
  the chord's tone set, the window-start instant); a separate `fireTimer`
  function is the body of the closure, and a timer may run only once its
  deadline has passed and is consumed when it runs (one-shot semantics).
* Callbacks are side effects; they are modelled as an emitted event list.
* JS `Set` objects of pitches are modelled as `Finset Int`.
-/

set_option autoImplicit false

namespace PianoCore

/-- `BASS_MAX = 59` (B3), from piano-core.js. -/
def BASS_MAX : Int := 59

/-- `TREBLE_MIN = 60` (C4), from piano-core.js. -/
def TREBLE_MIN : Int := 60

/-- `CHORD_WINDOW_MS = 100`, from piano-core.js. -/
def CHORD_WINDOW_MS : Nat := 100

/-- Lane identity: `'bass' | 'treble' | 'mono'`. -/
inductive LaneId
  | bass
  | treble
  | mono
deriving DecidableEq

/-- Lane mode: `'melody' | 'chord'`. -/
inductive Mode
  | melody
  | chord
deriving DecidableEq

/-- `Target = Melody{midi,id} | Chord{mids,id}` (tagged union). -/
inductive Target
  | melody (midi : Int) (id : Nat)
  | chord (mids : List Int) (id : Nat)
deriving DecidableEq

/-- The `id` field shared by both target kinds. -/
def Target.id : Target → Nat
  | .melody _ i => i
  | .chord _ i => i

/-- `chordRT : {activeId, started, collected}` — the in-progress chord
collection window of a lane. -/
structure ChordRT where
  activeId : Nat
  started : Nat
  collected : Finset Int
deriving DecidableEq

/-- Per-lane state.  The configuration fields that the evaluator never reads
(`movementSpeedPxPerSec`, `spawnIntervalMs`, `spawnIntervalChordMs`, `range`)
are omitted; they are stored constants in piano-core.js. -/
structure LaneSt where
  mode : Mode
  lives : Int
  enabled : Bool
  queue : List Target
  chordRT : Option ChordRT
deriving DecidableEq

/-- The data captured by the `setTimeout` closure scheduled in `evalChord`:
the lane (the closure holds the lane object `ls` by reference), `t.id`,
`tones` (the chord's pitch set) and the window-start instant.  The closure is
due `CHORD_WINDOW_MS + 10` ms after `started`. -/
structure Timer where
  lane : LaneId
  targetId : Nat
  tones : Finset Int
  started : Nat
deriving DecidableEq

/-- Emitted callback events, in invocation order.  `onSuccess`/`onFail`
receive the shifted queue head, which in JS is `undefined` on an empty queue,
hence `Option Target`. -/
inductive Ev
  | success (lane : LaneId) (t : Option Target)
  | fail (lane : LaneId) (t : Option Target) (why : String)
  | livesChanged (lane : LaneId) (lives : Int)
  | laneDisabled (lane : LaneId)
  | gameOver (why : String)
deriving DecidableEq

/-- The whole engine state (`state` object of piano-core.js), plus the pending
`setTimeout` queue and the clock. -/
structure EngineState where
  piano : Bool
  bass : LaneSt
  treble : LaneSt
  mono : LaneSt
  timers : List Timer
  now : Nat
deriving DecidableEq

/-- `state.lanes[l]`. -/
def EngineState.lane (s : EngineState) : LaneId → LaneSt
  | .bass => s.bass
  | .treble => s.treble
  | .mono => s.mono

/-- Functional update of `state.lanes[l]`. -/
def EngineState.setLane (s : EngineState) : LaneId → LaneSt → EngineState
  | .bass, ls => { s with bass := ls }
  | .treble, ls => { s with treble := ls }
  | .mono, ls => { s with mono := ls }

/-- `routeLane(midi)` — piano mode splits at `BASS_MAX` (≤ 59 is bass, else
treble); otherwise everything goes to the single `mono` lane.  Pure: it reads
`state.piano` and nothing else, and mutates nothing. -/
def routeLane (s : EngineState) (midi : Int) : LaneId :=
  if s.piano then (if midi ≤ BASS_MAX then .bass else .treble) else .mono

/-- `popSuccessLane(ls)`: shift the queue head, clear the chord window, emit
`onSuccess(lane, t)`. -/
def popSuccessLane (s : EngineState) (l : LaneId) : EngineState × List Ev :=
  let ls := s.lane l
  (s.setLane l { ls with queue := ls.queue.tail, chordRT := none },
    [Ev.success l ls.queue.head?])

/-- `popFailLane(ls, why)`: shift the queue head, clear the chord window,
decrement `lives` (no clamp in piano-core.js), emit `onLives` then `onFail`;
if lives dropped to ≤ 0 the lane is disabled, `onLaneDisabled` fires, and a
game-over callback fires when this was the last enabled lane (piano mode) or
always (mono mode). -/
def popFailLane (s : EngineState) (l : LaneId) (why : String) :
    EngineState × List Ev :=
  let ls := s.lane l
  let lives' := ls.lives - 1
  let ls' : LaneSt :=
    { ls with
      queue := ls.queue.tail
      chordRT := none
      lives := lives'
      enabled := if lives' ≤ 0 then false else ls.enabled }
  let s' := s.setLane l ls'
  let evs :=
    [Ev.livesChanged l lives', Ev.fail l ls.queue.head? why] ++
      (if lives' ≤ 0 then
        [Ev.laneDisabled l] ++
          (if s'.piano then
            (if !s'.bass.enabled && !s'.treble.enabled then
              [Ev.gameOver "piano-both-dead"] else [])
          else [Ev.gameOver "mono-dead"])
      else [])
  (s', evs)

/-- `evalMelody(ls, midi)` — strict melody rule: no-op unless the head target
is a melody; exact pitch match succeeds, anything else fails with
`melody-wrong-note`. -/
def evalMelody (s : EngineState) (l : LaneId) (midi : Int) :
    EngineState × List Ev :=
  match (s.lane l).queue.head? with
  | some (Target.melody m _) =>
      if midi = m then popSuccessLane s l
      else popFailLane s l "melody-wrong-note"
  | _ => (s, [])

/-- `evalChord(ls, midi)` — chord rule: a non-member pitch fails immediately
with `chord-stray`; a member pitch opens the collection window if none is open
for this target id (scheduling the timeout closure), is added to `collected`,
and completes the chord when all unique tones are collected. -/
def evalChord (s : EngineState) (l : LaneId) (midi : Int) :
    EngineState × List Ev :=
  match (s.lane l).queue.head? with
  | some (Target.chord mids tid) =>
      let tones := mids.toFinset
      if midi ∉ tones then popFailLane s l "chord-stray"
      else
        let rt0 : ChordRT :=
          match (s.lane l).chordRT with
          | some rt => if rt.activeId = tid then rt
              else { activeId := tid, started := s.now, collected := ∅ }
          | none => { activeId := tid, started := s.now, collected := ∅ }
        let newWindow : Bool :=
          match (s.lane l).chordRT with
          | some rt => rt.activeId != tid
          | none => true
        let tmNew : Timer :=
          { lane := l, targetId := tid, tones := tones, started := s.now }
        let s1 := if newWindow then { s with timers := s.timers ++ [tmNew] }
          else s
        let rt' := { rt0 with collected := insert midi rt0.collected }
        let s2 := s1.setLane l { s1.lane l with chordRT := some rt' }
        if rt'.collected.card = tones.card then popSuccessLane s2 l
        else (s2, [])
  | _ => (s, [])

/-- Body of the `setTimeout` closure scheduled in `evalChord`: a no-op unless
the lane's head is still a chord with the captured id; otherwise it fails the
chord with `chord-timeout` when the collection is still incomplete. -/
def fireTimer (s : EngineState) (tm : Timer) : EngineState × List Ev :=
  let ls := s.lane tm.lane
  match ls.queue.head? with
  | some (Target.chord _ hid) =>
      if hid = tm.targetId then
        match ls.chordRT with
        | none => popFailLane s tm.lane "chord-timeout"
        | some rt =>
            if rt.collected.card < tm.tones.card then
              popFailLane s tm.lane "chord-timeout"
            else (s, [])
      else (s, [])
  | _ => (s, [])

/-- `onNoteOn(midi, velocity)` — the sole evaluation entry point.  Routes the
pitch, ignores disabled lanes, and dispatches on the lane's mode.  `velocity`
is accepted and never read, exactly as in the source. -/
def onNoteOn (s : EngineState) (midi velocity : Int) :
    EngineState × List Ev :=
  let l := routeLane s midi
  let ls := s.lane l
  if ls.enabled = false then (s, [])
  else
    match ls.mode with
    | .melody => evalMelody s l midi
    | .chord => evalChord s l midi

/-- `pushTarget(l, t)`. -/
def pushTarget (s : EngineState) (l : LaneId) (t : Target) : EngineState :=
  s.setLane l { s.lane l with queue := (s.lane l).queue ++ [t] }

/-- `setLaneMode(l, m)`. -/
def setLaneMode (s : EngineState) (l : LaneId) (m : Mode) : EngineState :=
  s.setLane l { s.lane l with mode := m }

/-- A fresh lane as produced by `init(opts)`: empty queue, no chord window,
`enabled = lives > 0`. -/
def mkLane (m : Mode) (lives : Int) : LaneSt :=
  { mode := m
    lives := lives
    enabled := decide (0 < lives)
    queue := []
    chordRT := none }

/-- `init(opts)` — session start: per-lane modes and starting lives, queues
and chord windows cleared, no timers pending yet. -/
def initState (piano : Bool) (bMode tMode mMode : Mode)
    (bLives tLives mLives : Int) (now : Nat) : EngineState :=
  { piano := piano
    bass := mkLane bMode bLives
    treble := mkLane tMode tLives
    mono := mkLane mMode mLives
    timers := []
    now := now }

/-- `t.id` is unused in `s`: it occurs in no queue, in no pending timer and in
no open chord window.  This models the spec's "collision-resistant opaque
token" contract of `makeId()` for freshly generated targets. -/
def laneIdUnused (ls : LaneSt) (i : Nat) : Bool :=
  ls.queue.all (fun t => t.id != i) &&
    (match ls.chordRT with
     | some rt => rt.activeId != i
     | none => true)

/-- Global id-freshness check for a newly generated target id. -/
def idUnused (s : EngineState) (i : Nat) : Bool :=
  laneIdUnused s.bass i && laneIdUnused s.treble i && laneIdUnused s.mono i &&
    s.timers.all (fun tm => tm.targetId != i)

/-- One externally triggered step of the engine within a session: a note-on
event, a due timeout firing (one-shot: the timer is consumed), a spawned
target with a fresh id being pushed, a lane-mode change, or the clock
advancing. -/
inductive Step : EngineState → EngineState → List Ev → Prop
  | note (s : EngineState) (midi velocity : Int) :
      Step s (onNoteOn s midi velocity).1 (onNoteOn s midi velocity).2
  | fire (s : EngineState) (tm : Timer) (htm : tm ∈ s.timers)
      (hdue : tm.started + CHORD_WINDOW_MS + 10 ≤ s.now) :
      Step s (fireTimer { s with timers := s.timers.erase tm } tm).1
        (fireTimer { s with timers := s.timers.erase tm } tm).2
  | push (s : EngineState) (l : LaneId) (t : Target)
      (hfresh : idUnused s t.id = true) :
      Step s (pushTarget s l t) []
  | mode (s : EngineState) (l : LaneId) (m : Mode) :
      Step s (setLaneMode s l m) []
  | tick (s : EngineState) (d : Nat) :
      Step s { s with now := s.now + d } []

/-- States reachable from a session start (`init` with per-lane starting
lives ≥ 0, per the data model "lives : integer ≥ 0"). -/
inductive Reach : EngineState → Prop
  | init (piano : Bool) (bMode tMode mMode : Mode)
      (bLives tLives mLives : Int) (now : Nat)
      (hb : 0 ≤ bLives) (ht : 0 ≤ tLives) (hm : 0 ≤ mLives) :
      Reach (initState piano bMode tMode mMode bLives tLives mLives now)
  | step {s s' : EngineState} {evs : List Ev} :
      Reach s → Step s s' evs → Reach s'

/-- A burst of note-on events processed back to back (no timeout fires and no
time passes in between) — the synchronous call path of §5: each note-on
handler runs to completion before the next event.  Velocity is irrelevant to
evaluation (see the velocity-independence theorem), so a fixed `0` is
passed. -/
def pressSeq (s : EngineState) (ps : List Int) : EngineState × List Ev :=
  match ps with
  | [] => (s, [])
  | p :: rest =>
      let r1 := onNoteOn s p 0
      let r2 := pressSeq r1.1 rest
      (r2.1, r1.2 ++ r2.2)

/-- Well-formedness of a session state.  These are exactly the properties the
asynchronous chord-timeout path relies on: lives never below zero with
`enabled` tracking `lives > 0`; target ids unique within and across lanes; an
open chord window always belongs to the (enabled) lane's current head chord
and is still incomplete; a pending timer whose target id is still at the head
of its lane finds the window it was scheduled with (same start instant, same
tone set); and a pending timer's target id can occur nowhere but at the head
of its own lane. -/
structure Inv (s : EngineState) : Prop where
  livesNonneg : ∀ l, 0 ≤ (s.lane l).lives
  enabledIff : ∀ l, (s.lane l).enabled = true ↔ 0 < (s.lane l).lives
  idsNodup : ∀ l, ((s.lane l).queue.map Target.id).Nodup
  idsDisj : ∀ l l', l ≠ l' → ∀ t ∈ (s.lane l).queue, ∀ t' ∈ (s.lane l').queue,
      t.id ≠ t'.id
  rtInv : ∀ l rt, (s.lane l).chordRT = some rt →
      ∃ mids, (s.lane l).queue.head? = some (Target.chord mids rt.activeId) ∧
        (s.lane l).enabled = true ∧ rt.collected ⊆ mids.toFinset ∧
        rt.collected.card < mids.toFinset.card
  timerHead : ∀ tm ∈ s.timers, ∀ mids,
      (s.lane tm.lane).queue.head? = some (Target.chord mids tm.targetId) →
      ∃ rt, (s.lane tm.lane).chordRT = some rt ∧ rt.activeId = tm.targetId ∧
        rt.started = tm.started ∧ tm.tones = mids.toFinset
  timerOnlyHead : ∀ tm ∈ s.timers, ∀ l, ∀ t ∈ (s.lane l).queue,
      t.id = tm.targetId → l = tm.lane ∧ (s.lane l).queue.head? = some t

/-- Example session: piano mode, bass in chord mode, the chord C2–E2–G2
pushed to the bass lane. -/
def exChordReady : EngineState :=
  pushTarget (initState true Mode.chord Mode.melody Mode.melody 3 3 3 0)
    LaneId.bass (Target.chord [36, 40, 43] 1)

/-- `exChordReady` after the first correct chord tone (36): the collection
window is open and the timeout closure is pending. -/
def exChordPressed : EngineState := (onNoteOn exChordReady 36 64).1

/-- The timer scheduled by the first correct tone in `exChordPressed`. -/
def exChordTimer : Timer :=
  { lane := LaneId.bass, targetId := 1,
    tones := ([36, 40, 43] : List Int).toFinset, started := 0 }

end PianoCore

namespace LaneSystem

open PianoCore (LaneId Mode Target ChordRT)

/-!
Embedding of `src/src/midi/lane-system.ts`.  The TypeScript file declares the
same `LaneId`/`Mode`/`Target` shapes as piano-core.js, so those types are
shared; its `chordRuntime` record `{activeId, windowStartMs, collected}` is
the shared `ChordRT` (`started` = `windowStartMs`).
-/

/-- `BASS_MAX_MIDI = 59` (B3). -/
def BASS_MAX_MIDI : Int := 59

/-- `TREBLE_MIN_MIDI = 60` (C4). -/
def TREBLE_MIN_MIDI : Int := 60

/-- `CHORD_WINDOW_MS = 100`. -/
def CHORD_WINDOW_MS : Nat := 100

/-- `routeLane(midi, pianoModeActive)` from lane-system.ts: mono when piano
mode is off, otherwise split at `BASS_MAX_MIDI`. -/
def routeLane (midi : Int) (pianoModeActive : Bool) : LaneId :=
  if !pianoModeActive then .mono
  else if midi ≤ BASS_MAX_MIDI then .bass else .treble

/-- `speedForLevel(level)`: `base 220 + 15·max(0, level)`, clamped into
`[160, 520]` (px/s). -/
def speedForLevel (level : Int) : Int :=
  min 520 (max 160 (220 + 15 * max 0 level))

/-- The target shapes `buildNextTarget` can produce: besides melody notes and
chords it can build a `melodyPhrase` (3–5 note run). -/
inductive BuiltTarget
  | melody (midi : Int) (id : Nat)
  | chord (mids : List Int) (id : Nat)
  | melodyPhrase (mids : List Int) (id : Nat)
deriving DecidableEq

/-- One entry of the `lanes` object: `{active, phraseIndex, phraseSize}`. -/
structure LaneLite where
  active : Option BuiltTarget
  phraseIndex : Nat
  phraseSize : Nat
deriving DecidableEq

/-- The arguments `spawnNext` hands to the visual spawn call
(`spawnVisualTarget(lane, t, {x, speedPxPerSec})`); the `x` coordinate is
canvas geometry (out of scope) and is omitted. -/
structure SpawnCall where
  lane : LaneId
  target : BuiltTarget
  speedPxPerSec : Int
deriving DecidableEq

/-- `spawnNext(lane)`: one-at-a-time policy — a no-op while a target is
active; otherwise the freshly built target (randomness of `buildNextTarget`
abstracted as the `built` argument) becomes active and is handed to the
visual spawner with speed `speedForLevel(gameLevel)`. -/
def spawnNext (lane : LaneId) (st : LaneLite) (built : BuiltTarget)
    (gameLevel : Int) : LaneLite × Option SpawnCall :=
  match st.active with
  | some _ => (st, none)
  | none =>
      let st1 : LaneLite :=
        match built with
        | .melodyPhrase mids _ =>
            { active := some built, phraseIndex := 0, phraseSize := mids.length }
        | _ => { st with active := some built }
      (st1, some { lane := lane, target := built, speedPxPerSec := speedForLevel gameLevel })

/-- One entry of the `laneStates` map (`LaneState` in lane-system.ts).  The
stored configuration the note-on path never reads (`movementSpeedPxPerSec`,
`spawnNextAtMs`, the cadence functions, `range`) is omitted. -/
structure LSLane where
  mode : Mode
  lives : Int
  enabled : Bool
  queue : List Target
  held : Finset Int
  chordRuntime : Option ChordRT
deriving DecidableEq

/-- Data captured by the `setTimeout(() => chordTimeoutCheck(ls.id, tgt.id,
startedAt), CHORD_WINDOW_MS + 5)` call. -/
structure LSTimer where
  lane : LaneId
  targetId : Nat
  startedAt : Nat
deriving DecidableEq

/-- Observable side effects on this path: `popSuccess` (success sound +
score), `popFail` (error sound), and `stopGame`. -/
inductive LSEv
  | successFx (lane : LaneId) (t : Target)
  | failFx (lane : LaneId) (t : Target)
  | stopGame (why : String)
deriving DecidableEq

/-- Global state touched by the lane-system note-on path: the lanes of
`laneStates` (all lanes of the active mode are present, as created by the
lane initialisation), the score counters, the pending timeouts and the
clock. -/
structure LSState where
  pianoModeActive : Bool
  bass : LSLane
  treble : LSLane
  mono : LSLane
  score : Int
  correctAnswers : Int
  timers : List LSTimer
  now : Nat
deriving DecidableEq

/-- `laneStates.get(l)`. -/
def LSState.lane (s : LSState) : LaneId → LSLane
  | .bass => s.bass
  | .treble => s.treble
  | .mono => s.mono

/-- Functional update of `laneStates.get(l)`. -/
def LSState.setLane (s : LSState) : LaneId → LSLane → LSState
  | .bass, ls => { s with bass := ls }
  | .treble, ls => { s with treble := ls }
  | .mono, ls => { s with mono := ls }

/-- `decrementLives(lane, amount)`: clamps at 0 (`Math.max(0, lives -
amount)`) and disables the lane when the result is ≤ 0.  (The mirroring into
the global UI counters is out of scope.) -/
def decrementLives (s : LSState) (l : LaneId) (amount : Int) : LSState :=
  let ls := s.lane l
  let lives' := max 0 (ls.lives - amount)
  s.setLane l
    { ls with lives := lives', enabled := if lives' ≤ 0 then false else ls.enabled }

/-- `_stopAtZeroGuards(clef)`: in piano mode, disables each lane whose life
counter is ≤ 0 and stops the game when both are dead.  (The global
`bassLives`/`trebleLives` counters it reads are kept in sync with the lane
records by `decrementLives`; the model reads the lane records.) -/
def stopAtZeroGuards (s : LSState) : LSState × List LSEv :=
  if s.pianoModeActive then
    let s1 := if s.bass.lives ≤ 0 then
        s.setLane .bass { s.bass with enabled := false } else s
    let s2 := if s1.treble.lives ≤ 0 then
        s1.setLane .treble { s1.treble with enabled := false } else s1
    if s2.bass.lives ≤ 0 ∧ s2.treble.lives ≤ 0 then
      (s2, [LSEv.stopGame "piano-both-dead"])
    else (s2, [])
  else (s, [])

/-- `popSuccess(lane, t)`: success sound, `score`/`correctAnswers` + 1. -/
def popSuccessFx (s : LSState) (l : LaneId) (t : Target) : LSState × List LSEv :=
  ({ s with score := s.score + 1, correctAnswers := s.correctAnswers + 1 },
    [LSEv.successFx l t])

/-- `removeActiveTargetFromQueue(lane)`. -/
def removeActiveTargetFromQueue (s : LSState) (l : LaneId) : LSState :=
  s.setLane l { s.lane l with queue := (s.lane l).queue.tail }

/-- `handleMelody_Strict(ls, midi, tgt)`: exact match pops and succeeds; any
other pitch decrements lives, runs the zero guards, pops and fails. -/
def handleMelody_Strict (s : LSState) (l : LaneId) (midi : Int)
    (tgtMidi : Int) (tid : Nat) : LSState × List LSEv :=
  if midi = tgtMidi then
    let s1 := removeActiveTargetFromQueue s l
    popSuccessFx s1 l (Target.melody tgtMidi tid)
  else
    let s1 := decrementLives s l 1
    let r2 := stopAtZeroGuards s1
    let s3 := removeActiveTargetFromQueue r2.1 l
    (s3, r2.2 ++ [LSEv.failFx l (Target.melody tgtMidi tid)])

/-- `handleChord_Strict(ls, midi, tgt)`: stray pitches blow the chord up
immediately; member pitches open/extend the collection window (scheduling the
`chordTimeoutCheck` timeout on a fresh window) and complete the chord when
every unique tone has been collected. -/
def handleChord_Strict (s : LSState) (l : LaneId) (midi : Int)
    (mids : List Int) (tid : Nat) : LSState × List LSEv :=
  let tones := mids.toFinset
  if midi ∉ tones then
    let s1 := decrementLives s l 1
    let r2 := stopAtZeroGuards s1
    let s3 := removeActiveTargetFromQueue r2.1 l
    let s4 := s3.setLane l { s3.lane l with chordRuntime := none }
    (s4, r2.2 ++ [LSEv.failFx l (Target.chord mids tid)])
  else
    let rt0 : ChordRT :=
      match (s.lane l).chordRuntime with
      | some rt => if rt.activeId = tid then rt
          else { activeId := tid, started := s.now, collected := ∅ }
      | none => { activeId := tid, started := s.now, collected := ∅ }
    let newWindow : Bool :=
      match (s.lane l).chordRuntime with
      | some rt => rt.activeId != tid
      | none => true
    let tmNew : LSTimer := { lane := l, targetId := tid, startedAt := s.now }
    let s1 := if newWindow then { s with timers := s.timers ++ [tmNew] } else s
    let rt' := { rt0 with collected := insert midi rt0.collected }
    let s2 := s1.setLane l { s1.lane l with chordRuntime := some rt' }
    if rt'.collected.card = tones.card then
      let s3 := removeActiveTargetFromQueue s2 l
      let r4 := popSuccessFx s3 l (Target.chord mids tid)
      (r4.1.setLane l { r4.1.lane l with chordRuntime := none }, r4.2)
    else (s2, [])

/-- `chordTimeoutCheck(lane, targetId, startedAt)`: acts only on an enabled
lane whose head is still the chord the timer was scheduled for, with a
matching runtime; fails the chord once the window has elapsed. -/
def chordTimeoutCheck (s : LSState) (lane : LaneId) (targetId : Nat)
    (startedAt : Nat) : LSState × List LSEv :=
  let ls := s.lane lane
  if ls.enabled = false then (s, [])
  else
    match ls.queue.head? with
    | some (Target.chord mids tid) =>
        if tid = targetId then
          match ls.chordRuntime with
          | some rt =>
              if rt.activeId = targetId then
                if CHORD_WINDOW_MS ≤ s.now - startedAt then
                  let s1 := decrementLives s lane 1
                  let r2 := stopAtZeroGuards s1
                  let s3 := removeActiveTargetFromQueue r2.1 lane
                  let s4 := s3.setLane lane { s3.lane lane with chordRuntime := none }
                  (s4, r2.2 ++ [LSEv.failFx lane (Target.chord mids tid)])
                else (s, [])
              else (s, [])
          | none => (s, [])
        else (s, [])
    | _ => (s, [])

/-- The `routedClef` computation of `handleMidiNoteOn`: `_routeClefByMidi`
when piano mode is on (`_isPianoOn()`), else the mono lane. -/
def routedClef (s : LSState) (midi : Int) : LaneId :=
  if s.pianoModeActive then
    (if midi ≤ BASS_MAX_MIDI then .bass else .treble)
  else .mono

/-- `handleMidiNoteOn(midi, velocity)` — the exported MIDI note-on entry
point: route (piano split or mono), ignore disabled lanes, record the pitch
in the lane's `held` set, then dispatch on the head target's kind (no-op when
the queue is empty).  `velocity` is accepted and never read.  (The lanes of
`laneStates` present in the active mode are modelled as always present; a
pitch routed to a lane missing from the map returns before touching any
state, like a disabled lane.) -/
def handleMidiNoteOn (s : LSState) (midi velocity : Int) : LSState × List LSEv :=
  let routedClef : LaneId := LaneSystem.routedClef s midi
  let ls := s.lane routedClef
  if ls.enabled = false then (s, [])
  else
    let s1 := s.setLane routedClef { ls with held := insert midi ls.held }
    match ls.queue.head? with
    | none => (s1, [])
    | some (Target.melody m tid) => handleMelody_Strict s1 routedClef midi m tid
    | some (Target.chord mids tid) => handleChord_Strict s1 routedClef midi mids tid

/-- Example lane-system lane: enabled melody lane with three lives, empty
queue, nothing held. -/
def exLSLane : LSLane :=
  { mode := Mode.melody, lives := 3, enabled := true, queue := [], held := ∅,
    chordRuntime := none }

/-- Example lane-system state in normal (mono) mode whose lanes have empty
queues. -/
def exLSEmpty : LSState :=
  { pianoModeActive := false, bass := exLSLane, treble := exLSLane,
    mono := exLSLane, score := 0, correctAnswers := 0, timers := [], now := 0 }

end LaneSystem

namespace PianoCore

/-! ### Basic state-access lemmas -/

@[simp] theorem lane_setLane_self (s : EngineState) (l : LaneId) (ls : LaneSt) :
    (s.setLane l ls).lane l = ls := by
  cases l <;> rfl

theorem lane_setLane_ne (s : EngineState) {l l' : LaneId} (ls : LaneSt)
    (h : l' ≠ l) : (s.setLane l ls).lane l' = s.lane l' := by
  cases l <;> cases l' <;> first | rfl | exact absurd rfl h

@[simp] theorem setLane_lane_self (s : EngineState) (l : LaneId) :
    s.setLane l (s.lane l) = s := by
  cases l <;> rfl

@[simp] theorem piano_setLane (s : EngineState) (l : LaneId) (ls : LaneSt) :
    (s.setLane l ls).piano = s.piano := by
  cases l <;> rfl

@[simp] theorem timers_setLane (s : EngineState) (l : LaneId) (ls : LaneSt) :
    (s.setLane l ls).timers = s.timers := by
  cases l <;> rfl

@[simp] theorem now_setLane (s : EngineState) (l : LaneId) (ls : LaneSt) :
    (s.setLane l ls).now = s.now := by
  cases l <;> rfl

theorem LaneSt.eta_chordRT {ls : LaneSt} {o : Option ChordRT}
    (h : ls.chordRT = o) : { ls with chordRT := o } = ls := by
  cases ls
  cases h
  rfl

/-! ### Claim theorems: routing, velocity, melody, stray, duplicate -/

/-- **C5.** Routing: with dual-lane (piano) mode on, a pitch goes to the bass
(primary) lane exactly when it is ≤ 59 and to the treble (secondary) lane
exactly when it is ≥ 60; with it off, every pitch goes to the mono lane.
Proved for both implementations (`PianoCore.routeLane` reads only the mode
flag of the state it is given, `LaneSystem.routeLane` takes the flag as an
argument); both are pure functions of their inputs, so routing has no side
effects by construction. -/
theorem route_split (s : EngineState) (p : Int) :
    (s.piano = true →
      ((routeLane s p = LaneId.bass ↔ p ≤ 59) ∧
        (routeLane s p = LaneId.treble ↔ 60 ≤ p))) ∧
    (s.piano = false → routeLane s p = LaneId.mono) ∧
    (LaneSystem.routeLane p true = LaneId.bass ↔ p ≤ 59) ∧
    (LaneSystem.routeLane p true = LaneId.treble ↔ 60 ≤ p) ∧
    LaneSystem.routeLane p false = LaneId.mono := by
  refine ⟨fun hpi => ⟨?_, ?_⟩, fun hpi => ?_, ?_, ?_, ?_⟩ <;>
      by_cases hp : p ≤ 59 <;>
      simp [routeLane, LaneSystem.routeLane, BASS_MAX,
        LaneSystem.BASS_MAX_MIDI, hp, *] <;>
      omega

/-- Witness for the routing theorem at pitches 30 (piano on) and 70 (piano
off). -/
theorem route_split_witness :
    (routeLane (initState true Mode.melody Mode.melody Mode.melody 3 3 3 0) 30
        = LaneId.bass ↔ (30 : Int) ≤ 59) ∧
    routeLane (initState false Mode.melody Mode.melody Mode.melody 3 3 3 0) 70
        = LaneId.mono :=
  ⟨((route_split (initState true Mode.melody Mode.melody Mode.melody 3 3 3 0)
      30).1 rfl).1,
   (route_split (initState false Mode.melody Mode.melody Mode.melody 3 3 3 0)
      70).2.1 rfl⟩

/-- **C10.** Velocity independence: both note-on entry points accept a
velocity argument and never read it, so the resulting state and emitted
callbacks are identical for any two velocities. -/
theorem velocity_independent (s : EngineState) (sls : LaneSystem.LSState)
    (midi v1 v2 : Int) :
    onNoteOn s midi v1 = onNoteOn s midi v2 ∧
    LaneSystem.handleMidiNoteOn sls midi v1 =
      LaneSystem.handleMidiNoteOn sls midi v2 :=
  ⟨rfl, rfl⟩

/-- **C1.** Strict melody rule: when a note-on is routed to an enabled
melody-mode lane whose head target is `Melody T`, a matching pitch pops the
head and emits exactly the success callback, and a non-matching pitch
decrements the lane's lives by exactly 1, pops the head, and emits the fail
callback with reason `melody-wrong-note`. -/
theorem melody_strict_eval (s : EngineState) (midi velocity T : Int)
    (tid : Nat) (l : LaneId) (hroute : routeLane s midi = l)
    (he : (s.lane l).enabled = true)
    (hm : (s.lane l).mode = Mode.melody)
    (hq : (s.lane l).queue.head? = some (Target.melody T tid)) :
    (midi = T →
      onNoteOn s midi velocity =
        (s.setLane l
          { s.lane l with queue := (s.lane l).queue.tail, chordRT := none },
         [Ev.success l (some (Target.melody T tid))])) ∧
    (midi ≠ T →
      ((onNoteOn s midi velocity).1.lane l).lives = (s.lane l).lives - 1 ∧
      ((onNoteOn s midi velocity).1.lane l).queue = (s.lane l).queue.tail ∧
      Ev.fail l (some (Target.melody T tid)) "melody-wrong-note" ∈
        (onNoteOn s midi velocity).2) := by
  have hon : onNoteOn s midi velocity = evalMelody s l midi := by
    simp [onNoteOn, hroute, he, hm]
  constructor
  · intro hEq
    subst hEq
    simp [hon, evalMelody, hq, popSuccessLane]
  · intro hNe
    simp [hon, evalMelody, hq, hNe, popFailLane]

/-- Witness for the melody theorem: mono lane, head E4 (64), lives 3;
pressing 64 succeeds and pressing 65 fails with `melody-wrong-note`. -/
theorem melody_strict_eval_witness :
    (((65 : Int) ≠ 64) → True) ∧
    ((onNoteOn (pushTarget
        (initState false Mode.melody Mode.melody Mode.melody 3 3 3 0)
        LaneId.mono (Target.melody 64 1)) 65 64).1.lane LaneId.mono).lives
      = 2 := by
  refine ⟨fun _ => trivial, ?_⟩
  have h := (melody_strict_eval (pushTarget
      (initState false Mode.melody Mode.melody Mode.melody 3 3 3 0)
      LaneId.mono (Target.melody 64 1)) 65 64 64 1 LaneId.mono
      (by decide) (by decide) (by decide) (by decide)).2 (by decide)
  rw [h.1]
  decide

/-- **C3.** Chord stray rule: a pitch routed to an enabled chord-mode lane
whose head is a chord, with the pitch not a member of the chord's pitch set,
fails immediately regardless of window state: lives drop by exactly 1, the
head is popped, the chord window is cleared, and the fail callback carries
reason `chord-stray`. -/
theorem chord_stray_eval (s : EngineState) (midi velocity : Int)
    (mids : List Int) (tid : Nat) (l : LaneId)
    (hroute : routeLane s midi = l)
    (he : (s.lane l).enabled = true)
    (hm : (s.lane l).mode = Mode.chord)
    (hq : (s.lane l).queue.head? = some (Target.chord mids tid))
    (hstray : midi ∉ mids.toFinset) :
    ((onNoteOn s midi velocity).1.lane l).lives = (s.lane l).lives - 1 ∧
    ((onNoteOn s midi velocity).1.lane l).queue = (s.lane l).queue.tail ∧
    ((onNoteOn s midi velocity).1.lane l).chordRT = none ∧
    Ev.fail l (some (Target.chord mids tid)) "chord-stray" ∈
      (onNoteOn s midi velocity).2 := by
  have hon : onNoteOn s midi velocity = evalChord s l midi := by
    simp [onNoteOn, hroute, he, hm]
  simp [hon, evalChord, hq, hstray, popFailLane]

/-- Witness for the stray theorem: piano mode, bass chord {36,40,43}, stray
pitch 41. -/
theorem chord_stray_eval_witness :
    ((onNoteOn (pushTarget
        (initState true Mode.chord Mode.melody Mode.melody 3 3 3 0)
        LaneId.bass (Target.chord [36, 40, 43] 1)) 41 64).1.lane
        LaneId.bass).lives = 2 := by
  have h := chord_stray_eval (pushTarget
      (initState true Mode.chord Mode.melody Mode.melody 3 3 3 0)
      LaneId.bass (Target.chord [36, 40, 43] 1)) 41 64 [36, 40, 43] 1
      LaneId.bass (by decide) (by decide) (by decide) (by decide) (by decide)
  rw [h.1]
  decide

/-- **C7.** Duplicate idempotence: a second press of an already-collected
chord tone leaves the engine state unchanged (same collected set, lives, and
head target) and emits no callback.  The side conditions `hsub`/`hcard`
(collected tones are chord members and the collection is still incomplete)
hold in every state where a window is open, since a completed collection pops
the target on the press that completed it. -/
theorem chord_duplicate_idempotent (s : EngineState) (midi velocity : Int)
    (mids : List Int) (tid : Nat) (rt : ChordRT) (l : LaneId)
    (hroute : routeLane s midi = l)
    (he : (s.lane l).enabled = true)
    (hm : (s.lane l).mode = Mode.chord)
    (hq : (s.lane l).queue.head? = some (Target.chord mids tid))
    (hrt : (s.lane l).chordRT = some rt)
    (hid : rt.activeId = tid)
    (hmem : midi ∈ rt.collected)
    (hsub : rt.collected ⊆ mids.toFinset)
    (hcard : rt.collected.card < mids.toFinset.card) :
    onNoteOn s midi velocity = (s, []) := by
  have hon : onNoteOn s midi velocity = evalChord s l midi := by
    simp [onNoteOn, hroute, he, hm]
  have hin : midi ∈ mids.toFinset := hsub hmem
  have hins : insert midi rt.collected = rt.collected :=
    Finset.insert_eq_self.mpr hmem
  rw [hon]
  simp only [evalChord, hq, hin, not_true_eq_false, if_false, hrt, hid]
  simp only [bne_self_eq_false, Bool.false_eq_true, if_false, if_true,
    ite_true, ite_false, hins]
  have heta : ({ activeId := rt.activeId, started := rt.started, collected := rt.collected } : ChordRT) = rt := rfl
  rw [heta, LaneSt.eta_chordRT hrt, setLane_lane_self,
    if_neg (Nat.ne_of_lt hcard)]

/-! ### Invariant machinery for the reachable-state claims -/

theorem setLane_setLane (s : EngineState) (l : LaneId) (a b : LaneSt) :
    (s.setLane l a).setLane l b = s.setLane l b := by
  cases l <;> rfl

theorem mem_of_head?_eq_some {α : Type} {xs : List α} {a : α}
    (h : xs.head? = some a) : a ∈ xs := by
  cases xs with
  | nil => cases h
  | cons x xs =>
      simp only [List.head?_cons, Option.some.injEq] at h
      subst h
      exact List.mem_cons_self x xs

theorem head_id_not_in_tail {Q : List Target}
    (hnd : (Q.map Target.id).Nodup) {t h : Target}
    (hh : Q.head? = some h) (ht : t ∈ Q.tail) : t.id ≠ h.id := by
  cases Q with
  | nil => cases hh
  | cons x xs =>
      simp only [List.head?_cons, Option.some.injEq] at hh
      subst hh
      simp only [List.tail_cons] at ht
      simp only [List.map_cons, List.nodup_cons] at hnd
      intro he
      exact hnd.1 (he ▸ List.mem_map_of_mem Target.id ht)

theorem eq_head_of_mem_of_id {Q : List Target}
    (hnd : (Q.map Target.id).Nodup) {h0 t : Target}
    (hq : Q.head? = some h0) (ht : t ∈ Q) (hid : t.id = h0.id) : t = h0 := by
  cases Q with
  | nil => cases ht
  | cons x xs =>
      simp only [List.head?_cons, Option.some.injEq] at hq
      subst hq
      rcases List.mem_cons.mp ht with h | h
      · exact h
      · exact absurd hid (head_id_not_in_tail hnd (by rfl) h)

/-- Master preservation lemma for popping a lane's head: the lane's queue
becomes its tail, its chord window is cleared, its lives/enabled pair is
replaced by any pair satisfying the life discipline, and a batch `E` of
timers keyed to the popped head may be appended.  Covers `popSuccessLane`,
`popFailLane`, and the completing chord press (which may have just scheduled
a timer for the popped chord). -/
theorem inv_popMaster (s : EngineState) (l : LaneId) (lv : Int) (en : Bool)
    (E : List Timer) (hInv : Inv s) (hlv : 0 ≤ lv) (hen : en = true ↔ 0 < lv)
    (hE : ∀ tm ∈ E, tm.lane = l ∧
      ∃ mids, (s.lane l).queue.head? = some (Target.chord mids tm.targetId)) :
    Inv (({ s with timers := s.timers ++ E } : EngineState).setLane l
      { mode := (s.lane l).mode, lives := lv, enabled := en,
        queue := (s.lane l).queue.tail, chordRT := none }) := by
  have hlaneE : ∀ l', ({ s with timers := s.timers ++ E } : EngineState).lane l'
      = s.lane l' := by
    intro l'; cases l' <;> rfl
  refine ⟨?_, ?_, ?_, ?_, ?_, ?_, ?_⟩
  · intro l'
    by_cases h : l' = l
    · subst h; rw [lane_setLane_self]; exact hlv
    · rw [lane_setLane_ne _ _ h, hlaneE]; exact hInv.livesNonneg l'
  · intro l'
    by_cases h : l' = l
    · subst h; rw [lane_setLane_self]; exact hen
    · rw [lane_setLane_ne _ _ h, hlaneE]; exact hInv.enabledIff l'
  · intro l'
    by_cases h : l' = l
    · subst h; rw [lane_setLane_self]
      exact List.Nodup.sublist
        (List.Sublist.map Target.id (List.tail_sublist _)) (hInv.idsNodup l')
    · rw [lane_setLane_ne _ _ h, hlaneE]; exact hInv.idsNodup l'
  · intro l1 l2 hne t ht t' ht'
    have ht2 : t ∈ (s.lane l1).queue := by
      by_cases h : l1 = l
      · subst h; rw [lane_setLane_self] at ht; exact List.mem_of_mem_tail ht
      · rwa [lane_setLane_ne _ _ h, hlaneE] at ht
    have ht'2 : t' ∈ (s.lane l2).queue := by
      by_cases h : l2 = l
      · subst h; rw [lane_setLane_self] at ht'
        exact List.mem_of_mem_tail ht'
      · rwa [lane_setLane_ne _ _ h, hlaneE] at ht'
    exact hInv.idsDisj l1 l2 hne t ht2 t' ht'2
  · intro l' rt hrt
    by_cases h : l' = l
    · subst h; rw [lane_setLane_self] at hrt; cases hrt
    · rw [lane_setLane_ne _ _ h, hlaneE] at hrt
      obtain ⟨mids, h1, h2, h3, h4⟩ := hInv.rtInv l' rt hrt
      exact ⟨mids, by rw [lane_setLane_ne _ _ h, hlaneE]; exact h1,
        by rw [lane_setLane_ne _ _ h, hlaneE]; exact h2, h3, h4⟩
  · intro tm htm mids hhd
    rw [timers_setLane] at htm
    have htm' : tm ∈ s.timers ++ E := htm
    rcases List.mem_append.mp htm' with hold | hnew
    · by_cases h : tm.lane = l
      · rw [h, lane_setLane_self] at hhd
        exfalso
        have hmemT : Target.chord mids tm.targetId ∈ (s.lane l).queue.tail :=
          mem_of_head?_eq_some hhd
        have hmemQ : Target.chord mids tm.targetId ∈ (s.lane l).queue :=
          List.mem_of_mem_tail hmemT
        have hoh := hInv.timerOnlyHead tm hold l _ hmemQ rfl
        exact head_id_not_in_tail (hInv.idsNodup l) hoh.2 hmemT rfl
      · rw [lane_setLane_ne _ _ h, hlaneE] at hhd
        obtain ⟨rt, h1, h2, h3, h4⟩ := hInv.timerHead tm hold mids hhd
        exact ⟨rt, by rw [lane_setLane_ne _ _ h, hlaneE]; exact h1, h2, h3, h4⟩
    · obtain ⟨hlane, mids0, hq0⟩ := hE tm hnew
      rw [hlane, lane_setLane_self] at hhd
      exfalso
      have hmemT := mem_of_head?_eq_some hhd
      exact head_id_not_in_tail (hInv.idsNodup l) hq0 hmemT rfl
  · intro tm htm l' t ht hid
    rw [timers_setLane] at htm
    have htm' : tm ∈ s.timers ++ E := htm
    rcases List.mem_append.mp htm' with hold | hnew
    · by_cases h : l' = l
      · subst h
        rw [lane_setLane_self] at ht
        have hoh := hInv.timerOnlyHead tm hold l' t (List.mem_of_mem_tail ht) hid
        exact absurd rfl (head_id_not_in_tail (hInv.idsNodup l') hoh.2 ht)
      · rw [lane_setLane_ne _ _ h, hlaneE] at ht
        have hoh := hInv.timerOnlyHead tm hold l' t ht hid
        exact ⟨hoh.1, by rw [lane_setLane_ne _ _ h, hlaneE]; exact hoh.2⟩
    · obtain ⟨hlane, mids0, hq0⟩ := hE tm hnew
      by_cases h : l' = l
      · subst h
        rw [lane_setLane_self] at ht
        exact absurd hid (head_id_not_in_tail (hInv.idsNodup l') hq0 ht)
      · rw [lane_setLane_ne _ _ h, hlaneE] at ht
        exfalso
        have hh0 : Target.chord mids0 tm.targetId ∈ (s.lane l).queue :=
          mem_of_head?_eq_some hq0
        exact hInv.idsDisj l' l h t ht _ hh0 hid

theorem chord_head_inj {mids mids' : List Int} {tid tid' : Nat}
    (h : some (Target.chord mids tid) = some (Target.chord mids' tid')) :
    mids' = mids ∧ tid' = tid := by
  simp only [Option.some.injEq, Target.chord.injEq] at h
  exact ⟨h.1.symm, h.2.symm⟩

theorem lane_timersUpdate (s : EngineState) (ts : List Timer) (l : LaneId) :
    ({ s with timers := ts } : EngineState).lane l = s.lane l := by
  cases l <;> rfl

theorem inv_popCommon (s : EngineState) (l : LaneId) (lv : Int) (en : Bool)
    (hInv : Inv s) (hlv : 0 ≤ lv) (hen : en = true ↔ 0 < lv) :
    Inv (s.setLane l
      { mode := (s.lane l).mode, lives := lv, enabled := en,
        queue := (s.lane l).queue.tail, chordRT := none }) := by
  have h := inv_popMaster s l lv en [] hInv hlv hen (by intro tm htm; cases htm)
  have he : ({ s with timers := s.timers ++ [] } : EngineState) = s := by
    rw [List.append_nil]
  rw [he] at h
  exact h

theorem inv_popFailLane (s : EngineState) (l : LaneId) (why : String)
    (hInv : Inv s) (hen : (s.lane l).enabled = true) :
    Inv (popFailLane s l why).1 := by
  have hpos : 0 < (s.lane l).lives := (hInv.enabledIff l).mp hen
  exact inv_popCommon s l ((s.lane l).lives - 1)
    (if (s.lane l).lives - 1 ≤ 0 then false else (s.lane l).enabled)
    hInv (by omega)
    (by by_cases hc : (s.lane l).lives - 1 ≤ 0 <;> simp [hc, hen] <;> omega)

theorem inv_popSuccessLane (s : EngineState) (l : LaneId) (hInv : Inv s) :
    Inv (popSuccessLane s l).1 :=
  inv_popCommon s l (s.lane l).lives (s.lane l).enabled hInv
    (hInv.livesNonneg l) (hInv.enabledIff l)

theorem popSuccess_of_setLane (s' : EngineState) (l : LaneId) (X : LaneSt) :
    (popSuccessLane (s'.setLane l X) l).1 =
      s'.setLane l
        { mode := X.mode, lives := X.lives, enabled := X.enabled,
          queue := X.queue.tail, chordRT := none } := by
  simp [popSuccessLane, setLane_setLane, lane_setLane_self]

/-- Master preservation lemma for a non-completing member press on a chord
head: the lane's chord window becomes `rt'` (still incomplete, keyed to the
head target), and on a freshly opened window the scheduled timer batch `E`
is appended.  `hOldT` states what already-pending timers for this same head
must satisfy (vacuous in the fresh-window case; from the old invariant in
the matching-window case). -/
theorem inv_windowMaster (s : EngineState) (l : LaneId) (mids : List Int)
    (tid : Nat) (rt' : ChordRT) (E : List Timer)
    (hInv : Inv s) (hen : (s.lane l).enabled = true)
    (hq : (s.lane l).queue.head? = some (Target.chord mids tid))
    (hrtA : rt'.activeId = tid)
    (hsub : rt'.collected ⊆ mids.toFinset)
    (hcard : rt'.collected.card < mids.toFinset.card)
    (hE : ∀ tm ∈ E, tm.lane = l ∧ tm.targetId = tid ∧
      tm.started = rt'.started ∧ tm.tones = mids.toFinset)
    (hOldT : ∀ tm ∈ s.timers, tm.lane = l → tm.targetId = tid →
      tm.started = rt'.started ∧ tm.tones = mids.toFinset) :
    Inv (({ s with timers := s.timers ++ E } : EngineState).setLane l
      { mode := (s.lane l).mode, lives := (s.lane l).lives,
        enabled := (s.lane l).enabled, queue := (s.lane l).queue,
        chordRT := some rt' }) := by
  have hlaneE : ∀ l', ({ s with timers := s.timers ++ E } : EngineState).lane l'
      = s.lane l' := fun l' => lane_timersUpdate s _ l'
  refine ⟨?_, ?_, ?_, ?_, ?_, ?_, ?_⟩
  · intro l'
    by_cases h : l' = l
    · subst h; rw [lane_setLane_self]; exact hInv.livesNonneg l'
    · rw [lane_setLane_ne _ _ h, hlaneE]; exact hInv.livesNonneg l'
  · intro l'
    by_cases h : l' = l
    · subst h; rw [lane_setLane_self]; exact hInv.enabledIff l'
    · rw [lane_setLane_ne _ _ h, hlaneE]; exact hInv.enabledIff l'
  · intro l'
    by_cases h : l' = l
    · subst h; rw [lane_setLane_self]; exact hInv.idsNodup l'
    · rw [lane_setLane_ne _ _ h, hlaneE]; exact hInv.idsNodup l'
  · intro l1 l2 hne t ht t' ht'
    have ht2 : t ∈ (s.lane l1).queue := by
      by_cases h : l1 = l
      · subst h; rw [lane_setLane_self] at ht; exact ht
      · rwa [lane_setLane_ne _ _ h, hlaneE] at ht
    have ht'2 : t' ∈ (s.lane l2).queue := by
      by_cases h : l2 = l
      · subst h; rw [lane_setLane_self] at ht'; exact ht'
      · rwa [lane_setLane_ne _ _ h, hlaneE] at ht'
    exact hInv.idsDisj l1 l2 hne t ht2 t' ht'2
  · intro l' rt hrt
    by_cases h : l' = l
    · subst h
      rw [lane_setLane_self] at hrt
      have hrr : rt = rt' := by
        simpa using hrt.symm
      subst hrr
      refine ⟨mids, ?_, ?_, hsub, hcard⟩
      · rw [lane_setLane_self]
        show (s.lane l').queue.head? = some (Target.chord mids rt.activeId)
        rw [hrtA]
        exact hq
      · rw [lane_setLane_self]
        exact hen
    · rw [lane_setLane_ne _ _ h, hlaneE] at hrt
      obtain ⟨mids0, h1, h2, h3, h4⟩ := hInv.rtInv l' rt hrt
      exact ⟨mids0, by rw [lane_setLane_ne _ _ h, hlaneE]; exact h1,
        by rw [lane_setLane_ne _ _ h, hlaneE]; exact h2, h3, h4⟩
  · intro tm htm mids' hhd
    rw [timers_setLane] at htm
    rcases List.mem_append.mp htm with hold | hnew
    · by_cases h : tm.lane = l
      · rw [h, lane_setLane_self] at hhd
        have hhd' : (s.lane l).queue.head? = some (Target.chord mids' tm.targetId) := hhd
        rw [hq] at hhd'
        obtain ⟨hm1, hm2⟩ := chord_head_inj hhd'
        have hOld := hOldT tm hold h hm2
        refine ⟨rt', ?_, ?_, hOld.1.symm, ?_⟩
        · rw [h, lane_setLane_self]
        · rw [hrtA, hm2]
        · rw [hOld.2, hm1]
      · rw [lane_setLane_ne _ _ h, hlaneE] at hhd
        obtain ⟨rt0, h1, h2, h3, h4⟩ := hInv.timerHead tm hold mids' hhd
        exact ⟨rt0, by rw [lane_setLane_ne _ _ h, hlaneE]; exact h1, h2, h3, h4⟩
    · obtain ⟨hl1, hl2, hl3, hl4⟩ := hE tm hnew
      rw [hl1, lane_setLane_self] at hhd
      have hhd' : (s.lane l).queue.head? = some (Target.chord mids' tm.targetId) := hhd
      rw [hq] at hhd'
      obtain ⟨hm1, hm2⟩ := chord_head_inj hhd'
      refine ⟨rt', ?_, ?_, hl3.symm, ?_⟩
      · rw [hl1, lane_setLane_self]
      · rw [hrtA, hm2]
      · rw [hl4, hm1]
  · intro tm htm l' t ht hid
    rw [timers_setLane] at htm
    have ht2 : t ∈ (s.lane l').queue := by
      by_cases h : l' = l
      · subst h; rw [lane_setLane_self] at ht; exact ht
      · rwa [lane_setLane_ne _ _ h, hlaneE] at ht
    rcases List.mem_append.mp htm with hold | hnew
    · have hoh := hInv.timerOnlyHead tm hold l' t ht2 hid
      refine ⟨hoh.1, ?_⟩
      by_cases h : l' = l
      · subst h; rw [lane_setLane_self]; exact hoh.2
      · rw [lane_setLane_ne _ _ h, hlaneE]; exact hoh.2
    · obtain ⟨hl1, hl2, hl3, hl4⟩ := hE tm hnew
      have hidt : t.id = (Target.chord mids tid).id := by
        rw [hid, hl2]; rfl
      by_cases h : l' = l
      · subst h
        have hteq : t = Target.chord mids tid :=
          eq_head_of_mem_of_id (hInv.idsNodup l') hq ht2 hidt
        refine ⟨by rw [hl1], ?_⟩
        rw [lane_setLane_self]
        show (s.lane l').queue.head? = some t
        rw [hteq]
        exact hq
      · exfalso
        have hh0 : Target.chord mids tid ∈ (s.lane l).queue :=
          mem_of_head?_eq_some hq
        exact hInv.idsDisj l' l h t ht2 _ hh0 hidt

/-- `inv_windowMaster` specialised to an already-open window (no timer
scheduled). -/
theorem inv_windowSame (s : EngineState) (l : LaneId) (mids : List Int)
    (tid : Nat) (rt' : ChordRT)
    (hInv : Inv s) (hen : (s.lane l).enabled = true)
    (hq : (s.lane l).queue.head? = some (Target.chord mids tid))
    (hrtA : rt'.activeId = tid)
    (hsub : rt'.collected ⊆ mids.toFinset)
    (hcard : rt'.collected.card < mids.toFinset.card)
    (hOldT : ∀ tm ∈ s.timers, tm.lane = l → tm.targetId = tid →
      tm.started = rt'.started ∧ tm.tones = mids.toFinset) :
    Inv (s.setLane l
      { mode := (s.lane l).mode, lives := (s.lane l).lives,
        enabled := (s.lane l).enabled, queue := (s.lane l).queue,
        chordRT := some rt' }) := by
  have h := inv_windowMaster s l mids tid rt' [] hInv hen hq hrtA hsub hcard
    (by intro tm htm; cases htm) hOldT
  have he : ({ s with timers := s.timers ++ [] } : EngineState) = s := by
    rw [List.append_nil]
  rw [he] at h
  exact h

theorem head?_append_of_head? {α : Type} {Q R : List α} {a : α}
    (h : Q.head? = some a) : (Q ++ R).head? = some a := by
  cases Q with
  | nil => cases h
  | cons x xs => simpa using h

theorem inv_evalMelody (s : EngineState) (l : LaneId) (midi : Int)
    (hInv : Inv s) (hen : (s.lane l).enabled = true) :
    Inv (evalMelody s l midi).1 := by
  cases hq : (s.lane l).queue.head? with
  | none =>
      have h0 : evalMelody s l midi = (s, []) := by simp only [evalMelody, hq]
      rw [h0]; exact hInv
  | some t =>
      cases t with
      | chord mids tid =>
          have h0 : evalMelody s l midi = (s, []) := by
            simp only [evalMelody, hq]
          rw [h0]; exact hInv
      | melody m tid =>
          by_cases he : midi = m
          · have h0 : evalMelody s l midi = popSuccessLane s l := by
              simp only [evalMelody, hq, he, if_true, ite_true]
            rw [h0]; exact inv_popSuccessLane s l hInv
          · have h0 : evalMelody s l midi =
                popFailLane s l "melody-wrong-note" := by
              simp only [evalMelody, hq, he, if_false, ite_false]
            rw [h0]; exact inv_popFailLane s l _ hInv hen

theorem inv_evalChord (s : EngineState) (l : LaneId) (midi : Int)
    (hInv : Inv s) (hen : (s.lane l).enabled = true) :
    Inv (evalChord s l midi).1 := by
  cases hq : (s.lane l).queue.head? with
  | none =>
      have h0 : evalChord s l midi = (s, []) := by simp only [evalChord, hq]
      rw [h0]; exact hInv
  | some t =>
      cases t with
      | melody m tid =>
          have h0 : evalChord s l midi = (s, []) := by simp only [evalChord, hq]
          rw [h0]; exact hInv
      | chord mids tid =>
          by_cases hmem : midi ∈ mids.toFinset
          · cases hrt : (s.lane l).chordRT with
            | none =>
                simp only [evalChord, hq, hmem, not_true_eq_false, if_false,
                  hrt, if_true, lane_timersUpdate]
                by_cases hfull : (insert midi (∅ : Finset Int)).card = mids.toFinset.card
                · rw [if_pos hfull, popSuccess_of_setLane]
                  exact inv_popMaster s l (s.lane l).lives (s.lane l).enabled
                    [{ lane := l, targetId := tid, tones := mids.toFinset, started := s.now }]
                    hInv (hInv.livesNonneg l) (hInv.enabledIff l)
                    (by intro tm htm
                        simp only [List.mem_singleton] at htm
                        subst htm
                        exact ⟨rfl, mids, hq⟩)
                · rw [if_neg hfull]
                  exact inv_windowMaster s l mids tid
                    { activeId := tid, started := s.now, collected := insert midi ∅ }
                    [{ lane := l, targetId := tid, tones := mids.toFinset, started := s.now }]
                    hInv hen hq rfl
                    (Finset.insert_subset_iff.mpr ⟨hmem, Finset.empty_subset _⟩)
                    (Nat.lt_of_le_of_ne (Finset.card_le_card
                      (Finset.insert_subset_iff.mpr ⟨hmem, Finset.empty_subset _⟩)) hfull)
                    (by intro tm htm
                        simp only [List.mem_singleton] at htm
                        subst htm
                        exact ⟨rfl, rfl, rfl, rfl⟩)
                    (by intro tm htm hlane htid
                        obtain ⟨rt0, hrt0, h2, h3, h4⟩ := hInv.timerHead tm htm mids
                          (by rw [hlane, htid]; exact hq)
                        rw [hlane, hrt] at hrt0
                        cases hrt0)
            | some rt =>
                by_cases hid : rt.activeId = tid
                · obtain ⟨mids0, hq0, hen0, hsub0, hcard0⟩ := hInv.rtInv l rt hrt
                  rw [hid] at hq0
                  rw [hq] at hq0
                  obtain ⟨hm0, -⟩ := chord_head_inj hq0.symm
                  subst hm0
                  simp only [evalChord, hq, hmem, not_true_eq_false, if_false,
                    hrt, hid, if_true, bne_self_eq_false, Bool.false_eq_true,
                    if_false, ite_true, ite_false]
                  have hsub1 : insert midi rt.collected ⊆ mids.toFinset :=
                    Finset.insert_subset_iff.mpr ⟨hmem, hsub0⟩
                  by_cases hfull : (insert midi rt.collected).card = mids.toFinset.card
                  · rw [if_pos hfull, popSuccess_of_setLane]
                    exact inv_popCommon s l (s.lane l).lives (s.lane l).enabled hInv
                      (hInv.livesNonneg l) (hInv.enabledIff l)
                  · rw [if_neg hfull]
                    exact inv_windowSame s l mids tid
                      { activeId := tid, started := rt.started, collected := insert midi rt.collected }
                      hInv hen hq rfl hsub1
                      (Nat.lt_of_le_of_ne (Finset.card_le_card hsub1) hfull)
                      (by intro tm htm hlane htid
                          obtain ⟨rt1, hrt1, h2, h3, h4⟩ := hInv.timerHead tm htm mids
                            (by rw [hlane, htid]; exact hq)
                          rw [hlane, hrt] at hrt1
                          have hr : rt1 = rt := by simpa using hrt1.symm
                          subst hr
                          exact ⟨h3.symm, h4⟩)
                · simp only [evalChord, hq, hmem, not_true_eq_false, if_false,
                    hrt, hid, bne_iff_ne, ne_eq, not_false_eq_true, if_true,
                    ite_true, ite_false, lane_timersUpdate]
                  by_cases hfull : (insert midi (∅ : Finset Int)).card = mids.toFinset.card
                  · rw [if_pos hfull, popSuccess_of_setLane]
                    exact inv_popMaster s l (s.lane l).lives (s.lane l).enabled
                      [{ lane := l, targetId := tid, tones := mids.toFinset, started := s.now }]
                      hInv (hInv.livesNonneg l) (hInv.enabledIff l)
                      (by intro tm htm
                          simp only [List.mem_singleton] at htm
                          subst htm
                          exact ⟨rfl, mids, hq⟩)
                  · rw [if_neg hfull]
                    exact inv_windowMaster s l mids tid
                      { activeId := tid, started := s.now, collected := insert midi ∅ }
                      [{ lane := l, targetId := tid, tones := mids.toFinset, started := s.now }]
                      hInv hen hq rfl
                      (Finset.insert_subset_iff.mpr ⟨hmem, Finset.empty_subset _⟩)
                      (Nat.lt_of_le_of_ne (Finset.card_le_card
                        (Finset.insert_subset_iff.mpr ⟨hmem, Finset.empty_subset _⟩)) hfull)
                      (by intro tm htm
                          simp only [List.mem_singleton] at htm
                          subst htm
                          exact ⟨rfl, rfl, rfl, rfl⟩)
                      (by intro tm htm hlane htid
                          obtain ⟨rt0, hrt0, h2, h3, h4⟩ := hInv.timerHead tm htm mids
                            (by rw [hlane, htid]; exact hq)
                          rw [hlane, hrt] at hrt0
                          have hr : rt0 = rt := by simpa using hrt0.symm
                          subst hr
                          rw [htid] at h2
                          exact absurd h2 hid)
          · simp only [evalChord, hq, hmem, not_false_eq_true, if_true]
            exact inv_popFailLane s l _ hInv hen

theorem inv_onNoteOn (s : EngineState) (midi v : Int) (hInv : Inv s) :
    Inv (onNoteOn s midi v).1 := by
  by_cases hen : (s.lane (routeLane s midi)).enabled = false
  · have h0 : onNoteOn s midi v = (s, []) := by
      simp only [onNoteOn, hen, if_true, ite_true]
    rw [h0]; exact hInv
  · have hen' : (s.lane (routeLane s midi)).enabled = true := by
      revert hen; cases (s.lane (routeLane s midi)).enabled <;> simp
    cases hm : (s.lane (routeLane s midi)).mode with
    | melody =>
        have h0 : onNoteOn s midi v = evalMelody s (routeLane s midi) midi := by
          simp [onNoteOn, hen', hm]
        rw [h0]; exact inv_evalMelody s _ midi hInv hen'
    | chord =>
        have h0 : onNoteOn s midi v = evalChord s (routeLane s midi) midi := by
          simp [onNoteOn, hen', hm]
        rw [h0]; exact inv_evalChord s _ midi hInv hen'

theorem inv_timersSub (s : EngineState) (ts : List Timer)
    (hsub : ∀ tm ∈ ts, tm ∈ s.timers) (hInv : Inv s) :
    Inv ({ s with timers := ts } : EngineState) := by
  refine ⟨?_, ?_, ?_, ?_, ?_, ?_, ?_⟩ <;> simp only [lane_timersUpdate]
  · exact hInv.livesNonneg
  · exact hInv.enabledIff
  · exact hInv.idsNodup
  · exact hInv.idsDisj
  · exact hInv.rtInv
  · intro tm htm mids hhd
    exact hInv.timerHead tm (hsub tm htm) mids hhd
  · intro tm htm l t ht hid
    exact hInv.timerOnlyHead tm (hsub tm htm) l t ht hid

theorem inv_fireStep (s : EngineState) (tm : Timer) (htm : tm ∈ s.timers)
    (hInv : Inv s) :
    Inv (fireTimer { s with timers := s.timers.erase tm } tm).1 := by
  have hInv0 : Inv ({ s with timers := s.timers.erase tm } : EngineState) :=
    inv_timersSub s _ (fun tm2 htm2 => List.mem_of_mem_erase htm2) hInv
  set s0 : EngineState := { s with timers := s.timers.erase tm } with hs0
  have hlane0 : ∀ l, s0.lane l = s.lane l := fun l => lane_timersUpdate s _ l
  cases hq : (s0.lane tm.lane).queue.head? with
  | none =>
      have h0 : fireTimer s0 tm = (s0, []) := by simp only [fireTimer, hq]
      rw [h0]; exact hInv0
  | some t =>
      cases t with
      | melody m tid =>
          have h0 : fireTimer s0 tm = (s0, []) := by simp only [fireTimer, hq]
          rw [h0]; exact hInv0
      | chord mids hid0 =>
          by_cases hidm : hid0 = tm.targetId
          · subst hidm
            have hqS : (s.lane tm.lane).queue.head?
                = some (Target.chord mids tm.targetId) := by
              rw [← hlane0]; exact hq
            obtain ⟨rt, hrtS, hact, hst, hto⟩ := hInv.timerHead tm htm mids hqS
            obtain ⟨mids1, hq1, hen1, hsub1, hcard1⟩ :=
              hInv.rtInv tm.lane rt hrtS
            rw [hact] at hq1
            rw [hqS] at hq1
            have hm1 : mids1 = mids := (chord_head_inj hq1).1
            rw [hm1] at hsub1 hcard1
            have hrt0 : (s0.lane tm.lane).chordRT = some rt := by
              rw [hlane0]; exact hrtS
            have hlt : rt.collected.card < tm.tones.card := by
              rw [hto]; exact hcard1
            have h0 : fireTimer s0 tm = popFailLane s0 tm.lane "chord-timeout" := by
              simp only [fireTimer, hq, hrt0, hlt, if_true, ite_true]
            rw [h0]
            have hen0 : (s0.lane tm.lane).enabled = true := by
              rw [hlane0]; exact hen1
            exact inv_popFailLane s0 tm.lane _ hInv0 hen0
          · have h0 : fireTimer s0 tm = (s0, []) := by
              simp only [fireTimer, hq, hidm, if_false, ite_false]
            rw [h0]; exact hInv0

theorem inv_push (s : EngineState) (l : LaneId) (t : Target)
    (hfresh : idUnused s t.id = true) (hInv : Inv s) :
    Inv (pushTarget s l t) := by
  have hfr := hfresh
  simp only [idUnused, laneIdUnused, Bool.and_eq_true, List.all_eq_true,
    bne_iff_ne, ne_eq] at hfr
  obtain ⟨⟨⟨⟨hbAll, -⟩, ⟨htAll, -⟩⟩, ⟨hmAll, -⟩⟩, htimers⟩ := hfr
  have hfq : ∀ l2, ∀ t2 ∈ (s.lane l2).queue, t2.id ≠ t.id := by
    intro l2 t2 ht2
    cases l2 with
    | bass => exact hbAll t2 ht2
    | treble => exact htAll t2 ht2
    | mono => exact hmAll t2 ht2
  have hft : ∀ tm ∈ s.timers, tm.targetId ≠ t.id := htimers
  unfold pushTarget
  refine ⟨?_, ?_, ?_, ?_, ?_, ?_, ?_⟩
  · intro l2
    by_cases h : l2 = l
    · subst h; rw [lane_setLane_self]; exact hInv.livesNonneg l2
    · rw [lane_setLane_ne _ _ h]; exact hInv.livesNonneg l2
  · intro l2
    by_cases h : l2 = l
    · subst h; rw [lane_setLane_self]; exact hInv.enabledIff l2
    · rw [lane_setLane_ne _ _ h]; exact hInv.enabledIff l2
  · intro l2
    by_cases h : l2 = l
    · subst h; rw [lane_setLane_self]
      show (((s.lane l2).queue ++ [t]).map Target.id).Nodup
      rw [List.map_append]
      refine List.Nodup.append (hInv.idsNodup l2) (List.nodup_singleton _) ?_
      intro a ha hb
      simp only [List.map_singleton, List.mem_singleton] at hb
      subst hb
      obtain ⟨t2, ht2, hid2⟩ := List.mem_map.mp ha
      exact hfq l2 t2 ht2 hid2
    · rw [lane_setLane_ne _ _ h]; exact hInv.idsNodup l2
  · intro l1 l2 hne t1 ht1 t2 ht2
    have hm1 : t1 ∈ (s.lane l1).queue ∨ (l1 = l ∧ t1 = t) := by
      by_cases h : l1 = l
      · subst h; rw [lane_setLane_self] at ht1
        rcases List.mem_append.mp ht1 with h1 | h1
        · exact Or.inl h1
        · exact Or.inr ⟨rfl, List.mem_singleton.mp h1⟩
      · rw [lane_setLane_ne _ _ h] at ht1; exact Or.inl ht1
    have hm2 : t2 ∈ (s.lane l2).queue ∨ (l2 = l ∧ t2 = t) := by
      by_cases h : l2 = l
      · subst h; rw [lane_setLane_self] at ht2
        rcases List.mem_append.mp ht2 with h1 | h1
        · exact Or.inl h1
        · exact Or.inr ⟨rfl, List.mem_singleton.mp h1⟩
      · rw [lane_setLane_ne _ _ h] at ht2; exact Or.inl ht2
    rcases hm1 with h1 | ⟨hl1, he1⟩
    · rcases hm2 with h2 | ⟨hl2, he2⟩
      · exact hInv.idsDisj l1 l2 hne t1 h1 t2 h2
      · subst he2; exact hfq l1 t1 h1
    · rcases hm2 with h2 | ⟨hl2, he2⟩
      · subst he1; exact fun he => hfq l2 t2 h2 he.symm
      · subst hl1; exact absurd hl2.symm hne
  · intro l2 rt hrt
    by_cases h : l2 = l
    · subst h
      rw [lane_setLane_self] at hrt
      have hrt2 : (s.lane l2).chordRT = some rt := hrt
      obtain ⟨mids, h1, h2, h3, h4⟩ := hInv.rtInv l2 rt hrt2
      refine ⟨mids, ?_, ?_, h3, h4⟩
      · rw [lane_setLane_self]
        show ((s.lane l2).queue ++ [t]).head?
          = some (Target.chord mids rt.activeId)
        exact head?_append_of_head? h1
      · rw [lane_setLane_self]
        show (s.lane l2).enabled = true
        exact h2
    · rw [lane_setLane_ne _ _ h] at hrt
      obtain ⟨mids, h1, h2, h3, h4⟩ := hInv.rtInv l2 rt hrt
      exact ⟨mids, by rw [lane_setLane_ne _ _ h]; exact h1,
        by rw [lane_setLane_ne _ _ h]; exact h2, h3, h4⟩
  · intro tm htm mids hhd
    rw [timers_setLane] at htm
    by_cases h : tm.lane = l
    · rw [h, lane_setLane_self] at hhd
      have hhd2 : ((s.lane l).queue ++ [t]).head?
          = some (Target.chord mids tm.targetId) := hhd
      cases hQ : (s.lane l).queue with
      | nil =>
          rw [hQ] at hhd2
          simp only [List.nil_append, List.head?_cons, Option.some.injEq] at hhd2
          exfalso
          apply hft tm htm
          rw [hhd2]
          rfl
      | cons x xs =>
          rw [hQ] at hhd2
          simp only [List.cons_append, List.head?_cons, Option.some.injEq] at hhd2
          have hold : (s.lane tm.lane).queue.head?
              = some (Target.chord mids tm.targetId) := by
            rw [h, hQ]
            simp [hhd2]
          obtain ⟨rt, h1, h2, h3, h4⟩ := hInv.timerHead tm htm mids hold
          refine ⟨rt, ?_, h2, h3, h4⟩
          rw [h, lane_setLane_self]
          show (s.lane l).chordRT = some rt
          rw [← h]
          exact h1
    · rw [lane_setLane_ne _ _ h] at hhd
      obtain ⟨rt, h1, h2, h3, h4⟩ := hInv.timerHead tm htm mids hhd
      exact ⟨rt, by rw [lane_setLane_ne _ _ h]; exact h1, h2, h3, h4⟩
  · intro tm htm l2 t2 ht2 hid2
    rw [timers_setLane] at htm
    have hm2 : t2 ∈ (s.lane l2).queue ∨ t2 = t := by
      by_cases h : l2 = l
      · subst h; rw [lane_setLane_self] at ht2
        rcases List.mem_append.mp ht2 with h1 | h1
        · exact Or.inl h1
        · exact Or.inr (List.mem_singleton.mp h1)
      · rw [lane_setLane_ne _ _ h] at ht2; exact Or.inl ht2
    rcases hm2 with h1 | h1
    · have hold := hInv.timerOnlyHead tm htm l2 t2 h1 hid2
      refine ⟨hold.1, ?_⟩
      by_cases h : l2 = l
      · subst h; rw [lane_setLane_self]
        show ((s.lane l2).queue ++ [t]).head? = some t2
        exact head?_append_of_head? hold.2
      · rw [lane_setLane_ne _ _ h]; exact hold.2
    · subst h1
      exact absurd hid2.symm (hft tm htm)

theorem inv_setLaneMode (s : EngineState) (l : LaneId) (m : Mode)
    (hInv : Inv s) : Inv (setLaneMode s l m) := by
  unfold setLaneMode
  refine ⟨?_, ?_, ?_, ?_, ?_, ?_, ?_⟩
  · intro l2
    by_cases h : l2 = l
    · subst h; rw [lane_setLane_self]; exact hInv.livesNonneg l2
    · rw [lane_setLane_ne _ _ h]; exact hInv.livesNonneg l2
  · intro l2
    by_cases h : l2 = l
    · subst h; rw [lane_setLane_self]; exact hInv.enabledIff l2
    · rw [lane_setLane_ne _ _ h]; exact hInv.enabledIff l2
  · intro l2
    by_cases h : l2 = l
    · subst h; rw [lane_setLane_self]; exact hInv.idsNodup l2
    · rw [lane_setLane_ne _ _ h]; exact hInv.idsNodup l2
  · intro l1 l2 hne t1 ht1 t2 ht2
    have h1 : t1 ∈ (s.lane l1).queue := by
      by_cases h : l1 = l
      · subst h; rw [lane_setLane_self] at ht1; exact ht1
      · rwa [lane_setLane_ne _ _ h] at ht1
    have h2 : t2 ∈ (s.lane l2).queue := by
      by_cases h : l2 = l
      · subst h; rw [lane_setLane_self] at ht2; exact ht2
      · rwa [lane_setLane_ne _ _ h] at ht2
    exact hInv.idsDisj l1 l2 hne t1 h1 t2 h2
  · intro l2 rt hrt
    by_cases h : l2 = l
    · subst h
      rw [lane_setLane_self] at hrt
      obtain ⟨mids, h1, h2, h3, h4⟩ := hInv.rtInv l2 rt hrt
      exact ⟨mids, by rw [lane_setLane_self]; exact h1,
        by rw [lane_setLane_self]; exact h2, h3, h4⟩
    · rw [lane_setLane_ne _ _ h] at hrt
      obtain ⟨mids, h1, h2, h3, h4⟩ := hInv.rtInv l2 rt hrt
      exact ⟨mids, by rw [lane_setLane_ne _ _ h]; exact h1,
        by rw [lane_setLane_ne _ _ h]; exact h2, h3, h4⟩
  · intro tm htm mids hhd
    rw [timers_setLane] at htm
    by_cases h : tm.lane = l
    · rw [h, lane_setLane_self] at hhd
      have hold : (s.lane tm.lane).queue.head?
          = some (Target.chord mids tm.targetId) := by rw [h]; exact hhd
      obtain ⟨rt, h1, h2, h3, h4⟩ := hInv.timerHead tm htm mids hold
      refine ⟨rt, ?_, h2, h3, h4⟩
      rw [h, lane_setLane_self]
      have : (s.lane l).chordRT = some rt := by rw [← h]; exact h1
      exact this
    · rw [lane_setLane_ne _ _ h] at hhd
      obtain ⟨rt, h1, h2, h3, h4⟩ := hInv.timerHead tm htm mids hhd
      exact ⟨rt, by rw [lane_setLane_ne _ _ h]; exact h1, h2, h3, h4⟩
  · intro tm htm l2 t2 ht2 hid2
    rw [timers_setLane] at htm
    have h1 : t2 ∈ (s.lane l2).queue := by
      by_cases h : l2 = l
      · subst h; rw [lane_setLane_self] at ht2; exact ht2
      · rwa [lane_setLane_ne _ _ h] at ht2
    have hold := hInv.timerOnlyHead tm htm l2 t2 h1 hid2
    refine ⟨hold.1, ?_⟩
    by_cases h : l2 = l
    · subst h; rw [lane_setLane_self]; exact hold.2
    · rw [lane_setLane_ne _ _ h]; exact hold.2

theorem lane_nowUpdate (s : EngineState) (x : Nat) (l : LaneId) :
    ({ s with now := x } : EngineState).lane l = s.lane l := by
  cases l <;> rfl

theorem inv_nowUpdate (s : EngineState) (x : Nat) (hInv : Inv s) :
    Inv ({ s with now := x } : EngineState) := by
  refine ⟨?_, ?_, ?_, ?_, ?_, ?_, ?_⟩ <;> simp only [lane_nowUpdate]
  · exact hInv.livesNonneg
  · exact hInv.enabledIff
  · exact hInv.idsNodup
  · exact hInv.idsDisj
  · exact hInv.rtInv
  · intro tm htm mids hhd
    exact hInv.timerHead tm htm mids hhd
  · intro tm htm l t ht hid
    exact hInv.timerOnlyHead tm htm l t ht hid

theorem inv_initState (piano : Bool) (bM tM mM : Mode) (bl tl ml : Int)
    (now : Nat) (hb : 0 ≤ bl) (ht : 0 ≤ tl) (hm : 0 ≤ ml) :
    Inv (initState piano bM tM mM bl tl ml now) := by
  refine ⟨?_, ?_, ?_, ?_, ?_, ?_, ?_⟩
  · intro l; cases l
    · exact hb
    · exact ht
    · exact hm
  · intro l
    cases l <;>
      simp [initState, mkLane, EngineState.lane, decide_eq_true_iff]
  · intro l
    cases l <;> simp [initState, mkLane, EngineState.lane]
  · intro l1 l2 hne t1 ht1 t2 ht2
    cases l1 <;> simp [initState, mkLane, EngineState.lane] at ht1
  · intro l rt hrt
    cases l <;> simp [initState, mkLane, EngineState.lane] at hrt
  · intro tm htm mids hhd
    simp [initState] at htm
  · intro tm htm l t ht hid
    simp [initState] at htm

theorem popSuccessLane_lane_ne (s : EngineState) (l0 l : LaneId)
    (h : l ≠ l0) : ((popSuccessLane s l0).1).lane l = s.lane l := by
  simp only [popSuccessLane]
  exact lane_setLane_ne _ _ h

theorem popFailLane_lane_ne (s : EngineState) (l0 l : LaneId) (why : String)
    (h : l ≠ l0) : ((popFailLane s l0 why).1).lane l = s.lane l := by
  simp only [popFailLane]
  exact lane_setLane_ne _ _ h

theorem evalMelody_lane_ne (s : EngineState) (l0 : LaneId) (midi : Int)
    (l : LaneId) (h : l ≠ l0) :
    ((evalMelody s l0 midi).1).lane l = s.lane l := by
  cases hq : (s.lane l0).queue.head? with
  | none =>
      have h0 : evalMelody s l0 midi = (s, []) := by simp only [evalMelody, hq]
      rw [h0]
  | some t =>
      cases t with
      | chord mids tid =>
          have h0 : evalMelody s l0 midi = (s, []) := by
            simp only [evalMelody, hq]
          rw [h0]
      | melody m tid =>
          by_cases he : midi = m
          · have h0 : evalMelody s l0 midi = popSuccessLane s l0 := by
              simp only [evalMelody, hq, he, if_true, ite_true]
            rw [h0]
            exact popSuccessLane_lane_ne s l0 l h
          · have h0 : evalMelody s l0 midi =
                popFailLane s l0 "melody-wrong-note" := by
              simp only [evalMelody, hq, he, if_false, ite_false]
            rw [h0]
            exact popFailLane_lane_ne s l0 l _ h

theorem evalChord_lane_ne (s : EngineState) (l0 : LaneId) (midi : Int)
    (l : LaneId) (h : l ≠ l0) :
    ((evalChord s l0 midi).1).lane l = s.lane l := by
  cases hq : (s.lane l0).queue.head? with
  | none =>
      have h0 : evalChord s l0 midi = (s, []) := by simp only [evalChord, hq]
      rw [h0]
  | some t =>
      cases t with
      | melody m tid =>
          have h0 : evalChord s l0 midi = (s, []) := by simp only [evalChord, hq]
          rw [h0]
      | chord mids tid =>
          by_cases hmem : midi ∈ mids.toFinset
          · cases hrt : (s.lane l0).chordRT with
            | none =>
                simp only [evalChord, hq, hmem, not_true_eq_false, if_false,
                  hrt, if_true, lane_timersUpdate]
                by_cases hfull :
                    (insert midi (∅ : Finset Int)).card = mids.toFinset.card
                · rw [if_pos hfull, popSuccess_of_setLane]
                  rw [lane_setLane_ne _ _ h, lane_timersUpdate]
                · rw [if_neg hfull]
                  simp only [lane_setLane_ne _ _ h, lane_timersUpdate]
            | some rt =>
                by_cases hid : rt.activeId = tid
                · simp only [evalChord, hq, hmem, not_true_eq_false, if_false,
                    hrt, hid, if_true, bne_self_eq_false, Bool.false_eq_true,
                    if_false, ite_true, ite_false]
                  by_cases hfull :
                      (insert midi rt.collected).card = mids.toFinset.card
                  · rw [if_pos hfull, popSuccess_of_setLane]
                    rw [lane_setLane_ne _ _ h]
                  · rw [if_neg hfull]
                    simp only [lane_setLane_ne _ _ h]
                · simp only [evalChord, hq, hmem, not_true_eq_false, if_false,
                    hrt, hid, bne_iff_ne, ne_eq, not_false_eq_true, if_true,
                    ite_true, ite_false, lane_timersUpdate]
                  by_cases hfull :
                      (insert midi (∅ : Finset Int)).card = mids.toFinset.card
                  · rw [if_pos hfull, popSuccess_of_setLane]
                    rw [lane_setLane_ne _ _ h, lane_timersUpdate]
                  · rw [if_neg hfull]
                    simp only [lane_setLane_ne _ _ h, lane_timersUpdate]
          · simp only [evalChord, hq, hmem, not_false_eq_true, if_true]
            exact popFailLane_lane_ne s l0 l _ h

theorem onNoteOn_lane_ne (s : EngineState) (midi v : Int) (l : LaneId)
    (h : l ≠ routeLane s midi) :
    ((onNoteOn s midi v).1).lane l = s.lane l := by
  by_cases hen : (s.lane (routeLane s midi)).enabled = false
  · have h0 : onNoteOn s midi v = (s, []) := by
      simp only [onNoteOn, hen, if_true, ite_true]
    rw [h0]
  · have hen' : (s.lane (routeLane s midi)).enabled = true := by
      revert hen; cases (s.lane (routeLane s midi)).enabled <;> simp
    cases hm : (s.lane (routeLane s midi)).mode with
    | melody =>
        have h0 : onNoteOn s midi v = evalMelody s (routeLane s midi) midi := by
          simp [onNoteOn, hen', hm]
        rw [h0]
        exact evalMelody_lane_ne s _ midi l h
    | chord =>
        have h0 : onNoteOn s midi v = evalChord s (routeLane s midi) midi := by
          simp [onNoteOn, hen', hm]
        rw [h0]
        exact evalChord_lane_ne s _ midi l h

/-- Every reachable state satisfies the engine invariant. -/
theorem reach_inv {s : EngineState} (h : Reach s) : Inv s := by
  induction h with
  | init piano bM tM mM bl tl ml now hb ht hm =>
      exact inv_initState piano bM tM mM bl tl ml now hb ht hm
  | step hr hstep ih =>
      cases hstep with
      | note midi v => exact inv_onNoteOn _ midi v ih
      | fire tm htm hdue => exact inv_fireStep _ tm htm ih
      | push l t hfresh => exact inv_push _ l t hfresh ih
      | mode l m => exact inv_setLaneMode _ l m ih
      | tick d => exact inv_nowUpdate _ _ ih

theorem fireStep_preserves_disabled (s : EngineState) (tm : Timer)
    (htm : tm ∈ s.timers) (hInv : Inv s) (l : LaneId)
    (hdis : (s.lane l).enabled = false) :
    (((fireTimer { s with timers := s.timers.erase tm } tm).1).lane l).enabled
      = false := by
  set s0 : EngineState := { s with timers := s.timers.erase tm } with hs0
  have hlane0 : ∀ l2, s0.lane l2 = s.lane l2 := fun l2 => lane_timersUpdate s _ l2
  cases hq : (s0.lane tm.lane).queue.head? with
  | none =>
      have h0 : fireTimer s0 tm = (s0, []) := by simp only [fireTimer, hq]
      rw [h0]
      rw [hlane0]
      exact hdis
  | some t =>
      cases t with
      | melody m tid =>
          have h0 : fireTimer s0 tm = (s0, []) := by simp only [fireTimer, hq]
          rw [h0]
          rw [hlane0]
          exact hdis
      | chord mids hid0 =>
          by_cases hidm : hid0 = tm.targetId
          · subst hidm
            have hqS : (s.lane tm.lane).queue.head?
                = some (Target.chord mids tm.targetId) := by
              rw [← hlane0]; exact hq
            obtain ⟨rt, hrtS, hact, hst, hto⟩ := hInv.timerHead tm htm mids hqS
            obtain ⟨mids1, hq1, hen1, hsub1, hcard1⟩ :=
              hInv.rtInv tm.lane rt hrtS
            rw [hact] at hq1
            rw [hqS] at hq1
            have hm1 : mids1 = mids := (chord_head_inj hq1).1
            rw [hm1] at hsub1 hcard1
            have hrt0 : (s0.lane tm.lane).chordRT = some rt := by
              rw [hlane0]; exact hrtS
            have hlt : rt.collected.card < tm.tones.card := by
              rw [hto]; exact hcard1
            have h0 : fireTimer s0 tm
                = popFailLane s0 tm.lane "chord-timeout" := by
              simp only [fireTimer, hq, hrt0, hlt, if_true, ite_true]
            rw [h0]
            have hne : l ≠ tm.lane := by
              intro he
              rw [he, hen1] at hdis
              cases hdis
            rw [popFailLane_lane_ne s0 tm.lane l _ hne, hlane0]
            exact hdis
          · have h0 : fireTimer s0 tm = (s0, []) := by
              simp only [fireTimer, hq, hidm, if_false, ite_false]
            rw [h0]
            rw [hlane0]
            exact hdis

/-- **C6.** Life-count safety: in every reachable engine state, every lane's
life count is ≥ 0; a lane whose lives have hit 0 is disabled; a disabled lane
ignores every note-on routed to it (no state change, no callbacks) and stays
disabled across every further step of the session (only `init` — a new
session — re-enables it).  In the lane-system variant, `decrementLives`
clamps at zero and disables the lane whenever the clamped count is 0, for
any starting value. -/
theorem lives_safety (s : EngineState) (hs : Reach s) :
    (∀ l, 0 ≤ (s.lane l).lives) ∧
    (∀ l, (s.lane l).lives = 0 → (s.lane l).enabled = false) ∧
    (∀ l, (s.lane l).enabled = false →
      (∀ midi v, routeLane s midi = l → onNoteOn s midi v = (s, [])) ∧
      (∀ s' evs, Step s s' evs → ((s'.lane l).enabled = false))) ∧
    (∀ (sls : LaneSystem.LSState) (l : LaneId) (amount : Int),
      0 ≤ ((LaneSystem.decrementLives sls l amount).lane l).lives ∧
      (((LaneSystem.decrementLives sls l amount).lane l).lives = 0 →
        ((LaneSystem.decrementLives sls l amount).lane l).enabled = false)) := by
  have hInv := reach_inv hs
  refine ⟨hInv.livesNonneg, ?_, ?_, ?_⟩
  · intro l hl
    cases hE : (s.lane l).enabled with
    | false => rfl
    | true =>
        exfalso
        have := (hInv.enabledIff l).mp hE
        omega
  · intro l hdis
    constructor
    · intro midi v hroute
      rw [← hroute] at hdis
      simp only [onNoteOn, hdis, if_true, ite_true]
    · intro s' evs hstep
      cases hstep with
      | note midi v =>
          by_cases h : l = routeLane s midi
          · subst h
            have h0 : onNoteOn s midi v = (s, []) := by
              simp only [onNoteOn, hdis, if_true, ite_true]
            rw [h0]
            exact hdis
          · rw [onNoteOn_lane_ne s midi v l h]
            exact hdis
      | fire tm htm hdue =>
          exact fireStep_preserves_disabled s tm htm hInv l hdis
      | push l0 t hfresh =>
          unfold pushTarget
          by_cases h : l = l0
          · subst h
            rw [lane_setLane_self]
            exact hdis
          · rw [lane_setLane_ne _ _ h]
            exact hdis
      | mode l0 m =>
          unfold setLaneMode
          by_cases h : l = l0
          · subst h
            rw [lane_setLane_self]
            exact hdis
          · rw [lane_setLane_ne _ _ h]
            exact hdis
      | tick d =>
          rw [lane_nowUpdate]
          exact hdis
  · intro sls l amount
    constructor
    · simp [LaneSystem.decrementLives]
      cases l <;> simp [LaneSystem.LSState.setLane, LaneSystem.LSState.lane]
    · intro h0
      simp only [LaneSystem.decrementLives] at h0 ⊢
      cases l <;>
        simp only [LaneSystem.LSState.setLane, LaneSystem.LSState.lane] at h0 ⊢ <;>
        rw [if_pos (by omega)]

/-- Witness for the life-safety theorem at a freshly initialised session with
a dead mono lane. -/
theorem lives_safety_witness :
    (∀ l, 0 ≤ ((initState false Mode.melody Mode.melody Mode.melody 3 3 0 0).lane
        l).lives) ∧
    (∀ l, ((initState false Mode.melody Mode.melody Mode.melody 3 3 0 0).lane
        l).lives = 0 →
      ((initState false Mode.melody Mode.melody Mode.melody 3 3 0 0).lane
        l).enabled = false) ∧
    (∀ l, ((initState false Mode.melody Mode.melody Mode.melody 3 3 0 0).lane
        l).enabled = false →
      (∀ midi v, routeLane
          (initState false Mode.melody Mode.melody Mode.melody 3 3 0 0) midi = l →
        onNoteOn (initState false Mode.melody Mode.melody Mode.melody 3 3 0 0)
          midi v =
          (initState false Mode.melody Mode.melody Mode.melody 3 3 0 0, [])) ∧
      (∀ s' evs, Step (initState false Mode.melody Mode.melody Mode.melody 3 3 0 0)
          s' evs → ((s'.lane l).enabled = false))) ∧
    (∀ (sls : LaneSystem.LSState) (l : LaneId) (amount : Int),
      0 ≤ ((LaneSystem.decrementLives sls l amount).lane l).lives ∧
      (((LaneSystem.decrementLives sls l amount).lane l).lives = 0 →
        ((LaneSystem.decrementLives sls l amount).lane l).enabled = false)) :=
  lives_safety (initState false Mode.melody Mode.melody Mode.melody 3 3 0 0)
    (Reach.init false Mode.melody Mode.melody Mode.melody 3 3 0 0
      (by decide) (by decide) (by decide))

/-- **C4.** Guarded chord timeout: in every reachable state, running a
pending timeout fails its chord (lives −1, head popped, fail callback with
reason `chord-timeout`) precisely when the lane's head is still the chord the
timer was scheduled for, the open window's start instant is the one the
timer captured, and the collected set is still short of the chord's unique
tone set; in every other situation the timeout changes no lane and emits
nothing. -/
theorem chord_timeout_guarded (s : EngineState) (hs : Reach s) (tm : Timer)
    (htm : tm ∈ s.timers) :
    ((∃ mids rt, (s.lane tm.lane).queue.head?
          = some (Target.chord mids tm.targetId) ∧
        (s.lane tm.lane).chordRT = some rt ∧ rt.started = tm.started ∧
        rt.collected.card < mids.toFinset.card) →
      (((fireTimer { s with timers := s.timers.erase tm } tm).1.lane
          tm.lane).lives = (s.lane tm.lane).lives - 1 ∧
       ((fireTimer { s with timers := s.timers.erase tm } tm).1.lane
          tm.lane).queue = (s.lane tm.lane).queue.tail ∧
       Ev.fail tm.lane ((s.lane tm.lane).queue.head?) "chord-timeout" ∈
         (fireTimer { s with timers := s.timers.erase tm } tm).2)) ∧
    ((¬ ∃ mids rt, (s.lane tm.lane).queue.head?
          = some (Target.chord mids tm.targetId) ∧
        (s.lane tm.lane).chordRT = some rt ∧ rt.started = tm.started ∧
        rt.collected.card < mids.toFinset.card) →
      (∀ l, (fireTimer { s with timers := s.timers.erase tm } tm).1.lane l
          = s.lane l) ∧
      (fireTimer { s with timers := s.timers.erase tm } tm).2 = []) := by
  have hInv := reach_inv hs
  set s0 : EngineState := { s with timers := s.timers.erase tm } with hs0
  have hlane0 : ∀ l2, s0.lane l2 = s.lane l2 := fun l2 => lane_timersUpdate s _ l2
  constructor
  · rintro ⟨mids, rt, hq, hrt, hst, hshort⟩
    obtain ⟨rt2, hrt2, hact2, hst2, hto2⟩ := hInv.timerHead tm htm mids hq
    rw [hrt] at hrt2
    have hr2 : rt2 = rt := by simpa using hrt2.symm
    subst hr2
    have hq0 : (s0.lane tm.lane).queue.head?
        = some (Target.chord mids tm.targetId) := by
      rw [hlane0]; exact hq
    have hrt0 : (s0.lane tm.lane).chordRT = some rt2 := by
      rw [hlane0]; exact hrt
    have hlt : rt2.collected.card < tm.tones.card := by
      rw [hto2]; exact hshort
    have h0 : fireTimer s0 tm = popFailLane s0 tm.lane "chord-timeout" := by
      simp only [fireTimer, hq0, hrt0, hlt, if_true, ite_true]
    rw [h0]
    refine ⟨?_, ?_, ?_⟩
    · simp only [popFailLane, lane_setLane_self, hlane0]
    · simp only [popFailLane, lane_setLane_self, hlane0]
    · simp only [popFailLane, hlane0, List.mem_append, List.mem_cons]
      tauto
  · intro hnot
    have hnohead : ∀ mids,
        (s.lane tm.lane).queue.head? ≠ some (Target.chord mids tm.targetId) := by
      intro mids hq
      apply hnot
      obtain ⟨rt2, hrt2, hact2, hst2, hto2⟩ := hInv.timerHead tm htm mids hq
      obtain ⟨mids1, hq1, hen1, hsub1, hcard1⟩ :=
        hInv.rtInv tm.lane rt2 hrt2
      rw [hact2] at hq1
      rw [hq] at hq1
      have hm1 : mids1 = mids := (chord_head_inj hq1).1
      rw [hm1] at hcard1
      exact ⟨mids, rt2, hq, hrt2, hst2, hcard1⟩
    have h0 : fireTimer s0 tm = (s0, []) := by
      cases hq : (s0.lane tm.lane).queue.head? with
      | none => simp only [fireTimer, hq]
      | some t =>
          cases t with
          | melody m tid => simp only [fireTimer, hq]
          | chord mids hid0 =>
              by_cases hidm : hid0 = tm.targetId
              · subst hidm
                exfalso
                apply hnohead mids
                rw [← hlane0]
                exact hq
              · simp only [fireTimer, hq, hidm, if_false, ite_false]
    rw [h0]
    exact ⟨hlane0, rfl⟩

theorem popSuccessLane_setLane_eq (s' : EngineState) (l : LaneId)
    (X : LaneSt) :
    popSuccessLane (s'.setLane l X) l =
      (s'.setLane l
        { mode := X.mode, lives := X.lives, enabled := X.enabled,
          queue := X.queue.tail, chordRT := none },
       [Ev.success l X.queue.head?]) := by
  simp [popSuccessLane, setLane_setLane, lane_setLane_self]

theorem routeLane_congr {s s' : EngineState} (h : s'.piano = s.piano)
    (x : Int) : routeLane s' x = routeLane s x := by
  simp [routeLane, h]

/-- A run of member presses into an already-open chord window: each press
short of completion changes only the collected set and emits nothing; the
press that completes the unique tone set pops the head, clears the window
and emits exactly one success callback. -/
theorem press_run (mids : List Int) (tid : Nat) (l : LaneId) (st : Nat) :
    ∀ (ps : List Int) (C : Finset Int) (s : EngineState),
    ps ≠ [] → ps.Nodup →
    (∀ p ∈ ps, routeLane s p = l) →
    (s.lane l).enabled = true →
    (s.lane l).mode = Mode.chord →
    (s.lane l).queue.head? = some (Target.chord mids tid) →
    (s.lane l).chordRT = some { activeId := tid, started := st, collected := C } →
    C ⊆ mids.toFinset →
    (∀ p ∈ ps, p ∈ mids.toFinset) →
    (∀ p ∈ ps, p ∉ C) →
    C ∪ ps.toFinset = mids.toFinset →
    pressSeq s ps =
      (s.setLane l
        { mode := (s.lane l).mode, lives := (s.lane l).lives,
          enabled := (s.lane l).enabled, queue := (s.lane l).queue.tail,
          chordRT := none },
       [Ev.success l (some (Target.chord mids tid))]) := by
  intro ps
  induction ps with
  | nil => intro C s hne; exact absurd rfl hne
  | cons p rest ih =>
      intro C s hne hnd hroute hen hm hq hrt hCsub hmemAll hnotC hcover
      have hpmem : p ∈ mids.toFinset := hmemAll p (List.mem_cons_self p rest)
      have hon : onNoteOn s p 0 = evalChord s l p := by
        simp [onNoteOn, hroute p (List.mem_cons_self p rest), hen, hm]
      have hred : evalChord s l p =
          (if (insert p C).card = mids.toFinset.card then
            popSuccessLane (s.setLane l
              { mode := (s.lane l).mode, lives := (s.lane l).lives,
                enabled := (s.lane l).enabled, queue := (s.lane l).queue,
                chordRT := some { activeId := tid, started := st, collected := insert p C } }) l
          else
            (s.setLane l
              { mode := (s.lane l).mode, lives := (s.lane l).lives,
                enabled := (s.lane l).enabled, queue := (s.lane l).queue,
                chordRT := some { activeId := tid, started := st, collected := insert p C } }, [])) := by
        simp only [evalChord, hq, hpmem, not_true_eq_false, if_false, hrt]
        simp only [bne_self_eq_false, Bool.false_eq_true, if_false, if_true,
          ite_true, ite_false]
      cases rest with
      | nil =>
          have hins : insert p C = mids.toFinset := by
            rw [Finset.insert_eq, Finset.union_comm, ← hcover]
            simp
          have hfull : (insert p C).card = mids.toFinset.card := by rw [hins]
          have hps : pressSeq s [p] = onNoteOn s p 0 := by
            simp [pressSeq]
          rw [hps, hon, hred, if_pos hfull, popSuccessLane_setLane_eq]
          rw [hq]
      | cons q rest2 =>
          have hq2 : q ∈ mids.toFinset :=
            hmemAll q (List.mem_cons_of_mem p (List.mem_cons_self q rest2))
          have hqC : q ∉ insert p C := by
            simp only [Finset.mem_insert, not_or]
            constructor
            · intro he
              apply (List.nodup_cons.mp hnd).1
              rw [← he]
              exact List.mem_cons_self q rest2
            · exact hnotC q (List.mem_cons_of_mem p (List.mem_cons_self q rest2))
          have hsubi : insert p C ⊆ mids.toFinset :=
            Finset.insert_subset_iff.mpr ⟨hpmem, hCsub⟩
          have hincomplete : ¬ (insert p C).card = mids.toFinset.card := by
            intro hcd
            have heq : insert p C = mids.toFinset :=
              Finset.eq_of_subset_of_card_le hsubi (le_of_eq hcd.symm)
            rw [← heq] at hq2
            exact hqC hq2
          have hstep : onNoteOn s p 0 =
              (s.setLane l
                { mode := (s.lane l).mode, lives := (s.lane l).lives,
                  enabled := (s.lane l).enabled, queue := (s.lane l).queue,
                  chordRT := some { activeId := tid, started := st, collected := insert p C } }, []) := by
            rw [hon, hred, if_neg hincomplete]
          have hih := ih (insert p C)
            (s.setLane l
              { mode := (s.lane l).mode, lives := (s.lane l).lives,
                enabled := (s.lane l).enabled, queue := (s.lane l).queue,
                chordRT := some { activeId := tid, started := st, collected := insert p C } })
            (by simp) (List.Nodup.of_cons hnd)
            (by intro r hr
                rw [routeLane_congr (piano_setLane s l _) r]
                exact hroute r (List.mem_cons_of_mem p hr))
            (by rw [lane_setLane_self]; exact hen)
            (by rw [lane_setLane_self]; exact hm)
            (by rw [lane_setLane_self]; exact hq)
            (by rw [lane_setLane_self])
            hsubi
            (by intro r hr
                exact hmemAll r (List.mem_cons_of_mem p hr))
            (by intro r hr
                simp only [Finset.mem_insert, not_or]
                constructor
                · intro he
                  apply (List.nodup_cons.mp hnd).1
                  rw [← he]
                  exact hr
                · exact hnotC r (List.mem_cons_of_mem p hr))
            (by rw [← hcover]
                simp [List.toFinset_cons, Finset.insert_union,
                  Finset.union_insert, Finset.Insert.comm])
          have hsplit : pressSeq s (p :: q :: rest2) =
              ((pressSeq (onNoteOn s p 0).1 (q :: rest2)).1,
                (onNoteOn s p 0).2 ++
                  (pressSeq (onNoteOn s p 0).1 (q :: rest2)).2) := by
            simp [pressSeq]
          rw [hsplit, hstep]
          simp only [hih, List.nil_append]
          rw [lane_setLane_self, setLane_setLane]

/-- **C2.** Chord completeness: pressing all members of an active chord's
unique tone set, once each in any order, with no timeout firing in between
(the presses are a synchronous burst inside the window), yields exactly one
success: no earlier press pops the target or emits any callback, and the
completing press pops the head, clears the window and emits the single
success callback; lives are untouched.  The first correct press also leaves
the scheduled timeout closure pending, as the final state records. -/
theorem chord_completion (s : EngineState) (ps mids : List Int) (tid : Nat)
    (l : LaneId)
    (hne : ps ≠ []) (hnd : ps.Nodup)
    (hcover : ps.toFinset = mids.toFinset)
    (hroute : ∀ p ∈ ps, routeLane s p = l)
    (hen : (s.lane l).enabled = true)
    (hm : (s.lane l).mode = Mode.chord)
    (hq : (s.lane l).queue.head? = some (Target.chord mids tid))
    (hfresh : ∀ rt, (s.lane l).chordRT = some rt → rt.activeId ≠ tid) :
    pressSeq s ps =
      (({ s with timers := s.timers ++
          [{ lane := l, targetId := tid, tones := mids.toFinset, started := s.now }] } : EngineState).setLane l
        { mode := (s.lane l).mode, lives := (s.lane l).lives,
          enabled := (s.lane l).enabled, queue := (s.lane l).queue.tail,
          chordRT := none },
       [Ev.success l (some (Target.chord mids tid))]) := by
  cases ps with
  | nil => exact absurd rfl hne
  | cons p rest =>
      have hpmem : p ∈ mids.toFinset := by
        rw [← hcover]
        simp
      have hon : onNoteOn s p 0 = evalChord s l p := by
        simp [onNoteOn, hroute p (List.mem_cons_self p rest), hen, hm]
      have hred : evalChord s l p =
          (if (insert p (∅ : Finset Int)).card = mids.toFinset.card then
            popSuccessLane
              (({ s with timers := s.timers ++
                  [{ lane := l, targetId := tid, tones := mids.toFinset, started := s.now }] } : EngineState).setLane l
                { mode := (s.lane l).mode, lives := (s.lane l).lives,
                  enabled := (s.lane l).enabled, queue := (s.lane l).queue,
                  chordRT := some { activeId := tid, started := s.now, collected := insert p ∅ } }) l
          else
            (({ s with timers := s.timers ++
                  [{ lane := l, targetId := tid, tones := mids.toFinset, started := s.now }] } : EngineState).setLane l
                { mode := (s.lane l).mode, lives := (s.lane l).lives,
                  enabled := (s.lane l).enabled, queue := (s.lane l).queue,
                  chordRT := some { activeId := tid, started := s.now, collected := insert p ∅ } }, [])) := by
        cases hrt : (s.lane l).chordRT with
        | none =>
            simp only [evalChord, hq, hpmem, not_true_eq_false, if_false, hrt,
              if_true, lane_timersUpdate]
        | some rt =>
            have hid : ¬ rt.activeId = tid := hfresh rt hrt
            simp only [evalChord, hq, hpmem, not_true_eq_false, if_false, hrt,
              hid, bne_iff_ne, ne_eq, not_false_eq_true, if_true, ite_true,
              ite_false, lane_timersUpdate]
      cases rest with
      | nil =>
          have hins : insert p (∅ : Finset Int) = mids.toFinset := by
            rw [← hcover]
            simp
          have hfull : (insert p (∅ : Finset Int)).card = mids.toFinset.card := by
            rw [hins]
          have hps : pressSeq s [p] = onNoteOn s p 0 := by simp [pressSeq]
          rw [hps, hon, hred, if_pos hfull, popSuccessLane_setLane_eq]
          rw [hq]
      | cons q rest2 =>
          have hq2 : q ∈ mids.toFinset := by
            rw [← hcover]
            simp
          have hqP : q ≠ p := by
            intro he
            apply (List.nodup_cons.mp hnd).1
            rw [← he]
            exact List.mem_cons_self q rest2
          have hsubi : insert p (∅ : Finset Int) ⊆ mids.toFinset := by
            simp [hpmem]
          have hincomplete :
              ¬ (insert p (∅ : Finset Int)).card = mids.toFinset.card := by
            intro hcd
            have heq : insert p (∅ : Finset Int) = mids.toFinset :=
              Finset.eq_of_subset_of_card_le hsubi (le_of_eq hcd.symm)
            rw [← heq] at hq2
            simp at hq2
            exact hqP hq2
          have hstep : onNoteOn s p 0 =
              (({ s with timers := s.timers ++
                  [{ lane := l, targetId := tid, tones := mids.toFinset, started := s.now }] } : EngineState).setLane l
                { mode := (s.lane l).mode, lives := (s.lane l).lives,
                  enabled := (s.lane l).enabled, queue := (s.lane l).queue,
                  chordRT := some { activeId := tid, started := s.now, collected := insert p ∅ } }, []) := by
            rw [hon, hred, if_neg hincomplete]
          have hrun := press_run mids tid l s.now (q :: rest2) (insert p ∅)
            (({ s with timers := s.timers ++
                [{ lane := l, targetId := tid, tones := mids.toFinset, started := s.now }] } : EngineState).setLane l
              { mode := (s.lane l).mode, lives := (s.lane l).lives,
                enabled := (s.lane l).enabled, queue := (s.lane l).queue,
                chordRT := some { activeId := tid, started := s.now, collected := insert p ∅ } })
            (by simp) (List.Nodup.of_cons hnd)
            (by intro r hr
                rw [routeLane_congr (piano_setLane _ l _) r]
                exact hroute r (List.mem_cons_of_mem p hr))
            (by rw [lane_setLane_self]; exact hen)
            (by rw [lane_setLane_self]; exact hm)
            (by rw [lane_setLane_self]; exact hq)
            (by rw [lane_setLane_self])
            hsubi
            (by intro r hr
                rw [← hcover]
                simp only [List.mem_toFinset]
                exact List.mem_cons_of_mem p hr)
            (by intro r hr
                simp only [Finset.mem_insert, Finset.not_mem_empty, or_false,
                  not_or]
                intro he
                apply (List.nodup_cons.mp hnd).1
                rw [← he]
                exact hr)
            (by rw [← hcover]
                simp [List.toFinset_cons, Finset.insert_union,
                  ← Finset.insert_eq, Finset.Insert.comm])
          have hsplit : pressSeq s (p :: q :: rest2) =
              ((pressSeq (onNoteOn s p 0).1 (q :: rest2)).1,
                (onNoteOn s p 0).2 ++
                  (pressSeq (onNoteOn s p 0).1 (q :: rest2)).2) := by
            simp [pressSeq]
          rw [hsplit, hstep]
          simp only [hrun, List.nil_append]
          rw [lane_setLane_self, setLane_setLane]

/-- Witness for chord completeness: pressing 36, 40, 43 against the bass
chord {36,40,43} in the example session succeeds exactly once. -/
theorem chord_completion_witness :
    pressSeq exChordReady [36, 40, 43] =
      (({ exChordReady with timers := exChordReady.timers ++
          [{ lane := LaneId.bass, targetId := 1,
             tones := ([36, 40, 43] : List Int).toFinset,
             started := exChordReady.now }] } : EngineState).setLane LaneId.bass
        { mode := (exChordReady.lane LaneId.bass).mode,
          lives := (exChordReady.lane LaneId.bass).lives,
          enabled := (exChordReady.lane LaneId.bass).enabled,
          queue := (exChordReady.lane LaneId.bass).queue.tail,
          chordRT := none },
       [Ev.success LaneId.bass (some (Target.chord [36, 40, 43] 1))]) :=
  chord_completion exChordReady [36, 40, 43] [36, 40, 43] 1 LaneId.bass
    (by decide) (by decide) (by decide) (by decide) (by decide) (by decide)
    (by decide)
    (by intro rt h
        have hnone : (exChordReady.lane LaneId.bass).chordRT = none := by decide
        rw [hnone] at h
        cases h)

/-- Witness for the chord-timeout theorem: in the example session with the
window open on the bass chord {36,40,43} and only 36 collected, the pending
timeout fails the chord (lives 3 → 2). -/
theorem chord_timeout_guarded_witness :
    ((fireTimer { exChordPressed with
        timers := exChordPressed.timers.erase exChordTimer } exChordTimer).1.lane
      LaneId.bass).lives = (exChordPressed.lane LaneId.bass).lives - 1 :=
  ((chord_timeout_guarded exChordPressed
    (Reach.step
      (Reach.step
        (Reach.init true Mode.chord Mode.melody Mode.melody 3 3 3 0
          (by decide) (by decide) (by decide))
        (Step.push (initState true Mode.chord Mode.melody Mode.melody 3 3 3 0)
          LaneId.bass (Target.chord [36, 40, 43] 1) (by decide)))
      (Step.note exChordReady 36 64))
    exChordTimer (by decide)).1
    ⟨[36, 40, 43], { activeId := 1, started := 0, collected := {36} },
      by decide, by decide, by decide, by decide⟩).1

/-- Witness for duplicate idempotence: bass chord {36,40,43} with 36 already
collected; pressing 36 again changes nothing and emits nothing. -/
theorem chord_duplicate_idempotent_witness :
    onNoteOn ((onNoteOn (pushTarget
        (initState true Mode.chord Mode.melody Mode.melody 3 3 3 0)
        LaneId.bass (Target.chord [36, 40, 43] 1)) 36 64).1) 36 64 =
      (((onNoteOn (pushTarget
        (initState true Mode.chord Mode.melody Mode.melody 3 3 3 0)
        LaneId.bass (Target.chord [36, 40, 43] 1)) 36 64).1), []) :=
  chord_duplicate_idempotent _ 36 64 [36, 40, 43] 1
    { activeId := 1, started := 0, collected := {36} } LaneId.bass
    (by decide) (by decide) (by decide) (by decide) (by decide) (by decide)
    (by decide) (by decide) (by decide)

end PianoCore

namespace LaneSystem

open PianoCore (LaneId Mode Target ChordRT)

/-! ### Spawn-speed and empty-lane claims -/

/-- **C8 counterexample.** The speed handed to the visual spawner by
`spawnNext` is `speedForLevel(level)`: at levels 1 and 2 the same melody
target on the same lane is spawned with different speeds (235 vs 250 px/s),
so the spawn speed is not independent of the level. -/
theorem spawn_speed_level_dependent :
    (spawnNext LaneId.mono { active := none, phraseIndex := 0, phraseSize := 0 }
        (BuiltTarget.melody 60 0) 1).2 ≠
      (spawnNext LaneId.mono { active := none, phraseIndex := 0, phraseSize := 0 }
        (BuiltTarget.melody 60 0) 2).2 := by
  decide

/-- **C8 amended.** The movement speed assigned at spawn time never depends
on the target's kind (melody, chord or phrase all get the same speed), and
equals `speedForLevel(gameLevel)` — a per-level constant (base 220 + 15 per
level, clamped into [160, 520]); so for a fixed level the speed is a
constant of the lane, but the level does change it, contrary to the original
claim. -/
theorem spawn_speed_kind_independent (lane : LaneId) (st : LaneLite)
    (t1 t2 : BuiltTarget) (lvl : Int) :
    ((spawnNext lane st t1 lvl).2.map SpawnCall.speedPxPerSec) =
      ((spawnNext lane st t2 lvl).2.map SpawnCall.speedPxPerSec) ∧
    (∀ c, (spawnNext lane st t1 lvl).2 = some c →
      c.speedPxPerSec = speedForLevel lvl) := by
  constructor
  · cases h : st.active with
    | some t => simp [spawnNext, h]
    | none => cases t1 <;> cases t2 <;> simp [spawnNext, h]
  · intro c hc
    cases h : st.active with
    | some t =>
        rw [show (spawnNext lane st t1 lvl).2 = none from by
          simp [spawnNext, h]] at hc
        cases hc
    | none =>
        cases t1 <;>
          · simp only [spawnNext, h, Option.some.injEq] at hc
            rw [← hc]

/-- Witness for the amended spawn-speed claim: at level 2 the spawn call for
a melody target carries speed 250 = `speedForLevel 2`. -/
theorem spawn_speed_kind_independent_witness :
    ({ lane := LaneId.mono, target := BuiltTarget.melody 60 0,
       speedPxPerSec := 250 } : SpawnCall).speedPxPerSec = speedForLevel 2 :=
  (spawn_speed_kind_independent LaneId.mono
    { active := none, phraseIndex := 0, phraseSize := 0 }
    (BuiltTarget.melody 60 0) (BuiltTarget.chord [36, 40, 43] 1) 2).2
    { lane := LaneId.mono, target := BuiltTarget.melody 60 0,
      speedPxPerSec := 250 } (by decide)

/-- **C9 counterexample.** `handleMidiNoteOn` on an enabled lane with an
empty queue is not a complete no-op: it records the pitch in the lane's
`held` set (a lane-state field) before discovering the queue is empty. -/
theorem noteOn_empty_mutates_held :
    ((handleMidiNoteOn exLSEmpty 60 64).1).mono.held ≠ exLSEmpty.mono.held := by
  decide

/-- **C9 amended.** A note-on routed to a disabled lane is a complete silent
no-op in both engines; a note-on routed to an enabled lane with no active
target emits no callback and pops/spawns nothing — piano-core's `onNoteOn`
leaves the state entirely unchanged, while lane-system's `handleMidiNoteOn`
changes nothing except recording the pitch in the lane's `held` set. -/
theorem noteOn_no_target (s : PianoCore.EngineState) (sls : LSState)
    (midi v : Int) :
    (((s.lane (PianoCore.routeLane s midi)).enabled = false ∨
        (s.lane (PianoCore.routeLane s midi)).queue = []) →
      PianoCore.onNoteOn s midi v = (s, [])) ∧
    ((sls.lane (routedClef sls midi)).enabled = false →
      handleMidiNoteOn sls midi v = (sls, [])) ∧
    ((sls.lane (routedClef sls midi)).enabled = true →
      (sls.lane (routedClef sls midi)).queue = [] →
      handleMidiNoteOn sls midi v =
        (sls.setLane (routedClef sls midi)
          { mode := (sls.lane (routedClef sls midi)).mode,
            lives := (sls.lane (routedClef sls midi)).lives,
            enabled := (sls.lane (routedClef sls midi)).enabled,
            queue := (sls.lane (routedClef sls midi)).queue,
            held := insert midi (sls.lane (routedClef sls midi)).held,
            chordRuntime := (sls.lane (routedClef sls midi)).chordRuntime },
         [])) := by
  refine ⟨?_, ?_, ?_⟩
  · rintro (hdis | hempty)
    · simp only [PianoCore.onNoteOn, hdis, if_true, ite_true]
    · by_cases hdis : (s.lane (PianoCore.routeLane s midi)).enabled = false
      · simp only [PianoCore.onNoteOn, hdis, if_true, ite_true]
      · have hen' : (s.lane (PianoCore.routeLane s midi)).enabled = true := by
          revert hdis
          cases (s.lane (PianoCore.routeLane s midi)).enabled <;> simp
        have hq : (s.lane (PianoCore.routeLane s midi)).queue.head? = none := by
          rw [hempty]
          rfl
        cases hm : (s.lane (PianoCore.routeLane s midi)).mode with
        | melody =>
            have h0 : PianoCore.onNoteOn s midi v =
                PianoCore.evalMelody s (PianoCore.routeLane s midi) midi := by
              simp [PianoCore.onNoteOn, hen', hm]
            rw [h0]
            simp only [PianoCore.evalMelody, hq]
        | chord =>
            have h0 : PianoCore.onNoteOn s midi v =
                PianoCore.evalChord s (PianoCore.routeLane s midi) midi := by
              simp [PianoCore.onNoteOn, hen', hm]
            rw [h0]
            simp only [PianoCore.evalChord, hq]
  · intro hdis
    simp only [handleMidiNoteOn, hdis, if_true, ite_true]
  · intro hen hqe
    have hq : (sls.lane (routedClef sls midi)).queue.head? = none := by
      rw [hqe]
      rfl
    simp only [handleMidiNoteOn, hen, Bool.true_eq_false, if_false, ite_false,
      hq]

/-- Witness for the amended empty-lane claim: a fresh piano-core session with
empty queues ignores a note-on entirely, and the empty lane-system state
records the pitch in `held` and emits nothing. -/
theorem noteOn_no_target_witness :
    PianoCore.onNoteOn
        (PianoCore.initState false Mode.melody Mode.melody Mode.melody 3 3 3 0)
        60 64 =
      (PianoCore.initState false Mode.melody Mode.melody Mode.melody 3 3 3 0,
        []) ∧
    handleMidiNoteOn exLSEmpty 60 64 =
      (exLSEmpty.setLane (routedClef exLSEmpty 60)
        { mode := (exLSEmpty.lane (routedClef exLSEmpty 60)).mode,
          lives := (exLSEmpty.lane (routedClef exLSEmpty 60)).lives,
          enabled := (exLSEmpty.lane (routedClef exLSEmpty 60)).enabled,
          queue := (exLSEmpty.lane (routedClef exLSEmpty 60)).queue,
          held := insert 60 (exLSEmpty.lane (routedClef exLSEmpty 60)).held,
          chordRuntime :=
            (exLSEmpty.lane (routedClef exLSEmpty 60)).chordRuntime },
       []) :=
  ⟨(noteOn_no_target
      (PianoCore.initState false Mode.melody Mode.melody Mode.melody 3 3 3 0)
      exLSEmpty 60 64).1 (Or.inr (by decide)),
   (noteOn_no_target
      (PianoCore.initState false Mode.melody Mode.melody Mode.melody 3 3 3 0)
      exLSEmpty 60 64).2.2 (by decide) (by decide)⟩

end LaneSystem
